import Mathlib

/-!
Verification of the IDKG (interactive distributed key generation) protocol engine and the
threshold-ECDSA signing pipeline of this repository.

The repository ships the `IDkgProtocol` trait implementation (`src/rs/crypto/src/sign/
canister_threshold_sig/idkg.rs`), which delegates every method to inner engine modules
(`dealing`, `transcript`, `complaint`, `retain_active_keys`) that are not part of the
source tree, together with the integration test suite
(`src/rs/crypto/tests/canister_threshold_sigs.rs`).

The wrapper file is embedded directly (see the `Client` section below).  The inner engine
functions are modelled from the specification: cryptographic primitives (elliptic curve
points, MEGa encryption, Pedersen commitments, NIZK proofs, multi-signatures) are treated,
as the specification itself mandates, as named primitives with stated contracts.  They are
modelled symbolically over the prime field `Fq`:

* a group element `g ^ k` is identified with its discrete logarithm `k`; the x-coordinate
  of a point is the canonical representative `xcoord k` (so that `xcoord (-k) = xcoord k`,
  mirroring `x(P) = x(-P)` on the curve);
* MEGa encryption of share `s` to receiver index `i` under ephemeral key `e` is the
  one-time-pad value `s + e * megaRecvKey i` (ElGamal-style shared secret);
* a secret sharing is a polynomial given by its coefficient list, evaluated at point
  `i + 1` for receiver index `i`;
* the NIZK complaint proof is the shared secret itself, and the combined multi-signature
  is an idealized record of what was signed and by whom.
-/

set_option autoImplicit false

namespace IcIdkg

/-- Size of the scalar field of the model curve (a prime, standing in for the secp256k1
group order). -/
abbrev Q : ℕ := 1009

instance : Fact (Nat.Prime Q) := ⟨by norm_num⟩

/-- The scalar field of the model curve. -/
abbrev Fq : Type := ZMod Q

abbrev NodeId : Type := ℕ

abbrev TranscriptId : Type := ℕ

/-- Horner evaluation of a polynomial given by its coefficient list (constant term first).
This is the shape of the committed sharing polynomials of the dealings. -/
def evalPoly (p : List Fq) (x : Fq) : Fq :=
  p.foldr (fun c acc => c + x * acc) 0

@[simp] theorem evalPoly_nil (x : Fq) : evalPoly [] x = 0 := rfl

@[simp] theorem evalPoly_cons (c : Fq) (cs : List Fq) (x : Fq) :
    evalPoly (c :: cs) x = c + x * evalPoly cs x := rfl

/-- The evaluation point associated with receiver index `i`: shares of receiver `i` are
the sharing polynomial evaluated at `i + 1`. -/
def evalPoint (i : ℕ) : Fq := ((i + 1 : ℕ) : Fq)

/-- The Lagrange coefficient at zero for node `x` within the node set `S`:
the value at `0` of the Lagrange basis polynomial of `x`. -/
def lagCoeff0 (S : Finset Fq) (x : Fq) : Fq :=
  ∏ y ∈ S.erase x, y * (y - x)⁻¹

theorem evalPoly_eq_sum (p : List Fq) (x : Fq) :
    evalPoly p x = ∑ i ∈ Finset.range p.length, p.getD i 0 * x ^ i := by
  induction p with
  | nil => simp
  | cons c cs ih =>
    rw [evalPoly_cons, ih, List.length_cons, Finset.sum_range_succ']
    simp only [List.getD_cons_succ, List.getD_cons_zero, pow_zero, mul_one, pow_succ,
      Finset.mul_sum]
    rw [add_comm]
    congr 1
    refine Finset.sum_congr rfl fun i _ => by ring

/-- Lagrange interpolation at zero: summing shares of a polynomial of degree below the
cardinality of the node set, weighted by the Lagrange coefficients at zero, recovers the
constant term of the polynomial. -/
theorem sum_lagCoeff0_mul_eval (p : List Fq) (S : Finset Fq) (h : p.length ≤ S.card) :
    (∑ x ∈ S, lagCoeff0 S x * evalPoly p x) = evalPoly p 0 := by
  classical
  set P : Polynomial Fq :=
    ∑ i ∈ Finset.range p.length, Polynomial.C (p.getD i 0) * Polynomial.X ^ i with hP
  have heval : ∀ x : Fq, P.eval x = evalPoly p x := by
    intro x
    rw [hP, Polynomial.eval_finset_sum, evalPoly_eq_sum]
    simp [Polynomial.eval_mul, Polynomial.eval_pow]
  have hdeg : P.degree < (S.card : WithBot ℕ) := by
    have h1 : P.degree < (p.length : WithBot ℕ) := by
      rw [hP]
      refine lt_of_le_of_lt (Polynomial.degree_sum_le _ _) ?_
      rw [Finset.sup_lt_iff (by exact WithBot.bot_lt_coe _)]
      intro i hi
      refine lt_of_le_of_lt (Polynomial.degree_C_mul_X_pow_le _ _) ?_
      exact_mod_cast Finset.mem_range.mp hi
    exact lt_of_lt_of_le h1 (by exact_mod_cast h)
  have hinj : Set.InjOn (id : Fq → Fq) S := Function.injective_id.injOn
  have hinterp := Lagrange.eq_interpolate (v := id) (s := S) (f := P) hinj hdeg
  have h0 := congrArg (Polynomial.eval 0) hinterp.symm
  rw [Lagrange.interpolate_apply, Polynomial.eval_finset_sum] at h0
  rw [← heval 0, ← h0]
  refine Finset.sum_congr rfl fun x hx => ?_
  rw [Polynomial.eval_mul, Polynomial.eval_C, heval, mul_comm]
  congr 1
  unfold Lagrange.basis
  rw [Polynomial.eval_prod]
  unfold lagCoeff0
  refine Finset.prod_congr rfl fun y hy => ?_
  unfold Lagrange.basisDivisor
  rw [Polynomial.eval_mul, Polynomial.eval_C, Polynomial.eval_sub, Polynomial.eval_X,
    Polynomial.eval_C]
  simp only [id_eq, zero_sub]
  rw [← neg_sub y x, inv_neg]
  ring

/-- Modelled from the spec: the x-coordinate of the model group element `g ^ a`.  In the
discrete-logarithm abstraction a point is its exponent, and the x-coordinate is the
canonical representative of the pair `(a, -a)`, so that `xcoord (-a) = xcoord a` exactly
as `x(P) = x(-P)` on the curve. -/
def xcoord (a : Fq) : Fq :=
  if a.val ≤ Q / 2 then a else -a

/-- Modelled from the spec: low-s normalization of the ECDSA `s` scalar, picking the
smaller of `s` and `-s`. -/
def lowS (s : Fq) : Fq :=
  if s.val ≤ Q / 2 then s else -s

theorem xcoord_neg (a : Fq) : xcoord (-a) = xcoord a := by
  by_cases h0 : a = 0
  · subst h0; simp [xcoord]
  · have hval : a.val < 1009 := ZMod.val_lt a
    have hnz : a.val ≠ 0 := fun hz => h0 ((ZMod.val_eq_zero a).mp hz)
    have hneg : (-a).val = 1009 - a.val := by
      rw [ZMod.neg_val]
      simp [h0]
    unfold xcoord
    have h2 : Q / 2 = 504 := rfl
    rw [h2, hneg]
    rcases le_or_lt a.val 504 with hle | hgt
    · rw [if_neg (by omega), if_pos hle, neg_neg]
    · rw [if_pos (by omega), if_neg (by omega)]

theorem xcoord_ne_zero {a : Fq} (h : a ≠ 0) : xcoord a ≠ 0 := by
  unfold xcoord
  split
  · exact h
  · exact neg_ne_zero.mpr h

theorem lowS_eq_or (s : Fq) : lowS s = s ∨ lowS s = -s := by
  unfold lowS
  split
  · exact Or.inl rfl
  · exact Or.inr rfl

theorem lowS_ne_zero {s : Fq} (h : s ≠ 0) : lowS s ≠ 0 := by
  unfold lowS
  split
  · exact h
  · exact neg_ne_zero.mpr h

/-- Big-endian encoding of a natural number into exactly `w` bytes (modulo `256 ^ w`). -/
def natToBytesBE : ℕ → ℕ → List ℕ
  | 0, _ => []
  | w + 1, x => natToBytesBE w (x / 256) ++ [x % 256]

/-- Big-endian decoding of a byte list into a natural number. -/
def bytesToNatBE (bs : List ℕ) : ℕ :=
  bs.foldl (fun acc b => acc * 256 + b) 0

@[simp] theorem length_natToBytesBE (w x : ℕ) : (natToBytesBE w x).length = w := by
  induction w generalizing x with
  | zero => rfl
  | succ w ih => simp [natToBytesBE, ih]

theorem bytesToNatBE_natToBytesBE (w x : ℕ) :
    bytesToNatBE (natToBytesBE w x) = x % 256 ^ w := by
  induction w generalizing x with
  | zero => simp [natToBytesBE, bytesToNatBE, Nat.mod_one]
  | succ w ih =>
    have hsplit : bytesToNatBE (natToBytesBE w (x / 256) ++ [x % 256]) =
        bytesToNatBE (natToBytesBE w (x / 256)) * 256 + x % 256 := by
      unfold bytesToNatBE
      rw [List.foldl_append]
      rfl
    rw [natToBytesBE, hsplit, ih]
    rw [pow_succ']
    rw [Nat.mod_mul]
    ring

/-! ## Data model (section 3 of the spec) -/

/-- MEGa multi-recipient ciphertext: one ephemeral key and one encrypted entry per
receiver, in receiver-index order.  Modelled from the spec with the ElGamal-style
shared secret `ephemeral_key * megaRecvKey i` as the one-time pad of entry `i`. -/
structure MEGaCiphertext where
  ephemeral_key : Fq
  ctexts : List Fq
deriving DecidableEq

/-- The content of `internal_dealing_raw`: the polynomial commitment (identified, in the
symbolic model, with the committed sharing polynomial, which makes the commitment
perfectly binding) and the MEGa ciphertext. -/
structure IDkgDealingInternal where
  commitment : List Fq
  ciphertext : MEGaCiphertext
deriving DecidableEq

structure IDkgDealing where
  transcript_id : TranscriptId
  dealer_id : NodeId
  internal_dealing_raw : IDkgDealingInternal
deriving DecidableEq

/-- The message covered by the dealing multi-signature (`EcdsaDealing` in the tests). -/
structure EcdsaDealing where
  requested_height : ℕ
  idkg_dealing : IDkgDealing
deriving DecidableEq

/-- Idealized combined multi-signature: an unforgeable record of the signed content and
of the set of signers.  The multi-signature subsystem is an external collaborator of this
repository and is specified only through its verify contract. -/
structure CombinedMultiSig where
  signed_content : EcdsaDealing
  signed_by : List NodeId
deriving DecidableEq

structure IDkgMultiSignedDealing where
  dealing : EcdsaDealing
  signers : List NodeId
  signature : CombinedMultiSig
deriving DecidableEq

inductive IDkgMaskedTranscriptOrigin where
  | Random : IDkgMaskedTranscriptOrigin
  | UnmaskedTimesMasked : TranscriptId → TranscriptId → IDkgMaskedTranscriptOrigin
deriving DecidableEq

inductive IDkgUnmaskedTranscriptOrigin where
  | ReshareMasked : TranscriptId → IDkgUnmaskedTranscriptOrigin
  | ReshareUnmasked : TranscriptId → IDkgUnmaskedTranscriptOrigin
deriving DecidableEq

inductive IDkgTranscriptType where
  | Masked : IDkgMaskedTranscriptOrigin → IDkgTranscriptType
  | Unmasked : IDkgUnmaskedTranscriptOrigin → IDkgTranscriptType
deriving DecidableEq

/-- The content of `internal_transcript_raw`: the aggregate commitment plus the
per-dealer commitment list, produced by the deterministic aggregation. -/
structure IDkgTranscriptInternal where
  combined_commitment : List Fq
  dealer_commitments : List (ℕ × List Fq)
deriving DecidableEq

structure IDkgTranscript where
  transcript_id : TranscriptId
  receivers : List NodeId
  registry_version : ℕ
  verified_dealings : List (ℕ × IDkgMultiSignedDealing)
  transcript_type : IDkgTranscriptType
  algorithm_id : ℕ
  internal_transcript_raw : IDkgTranscriptInternal
deriving DecidableEq

inductive IDkgTranscriptOperation where
  | Random : IDkgTranscriptOperation
  | ReshareOfMasked : IDkgTranscript → IDkgTranscriptOperation
  | ReshareOfUnmasked : IDkgTranscript → IDkgTranscriptOperation
  | UnmaskedTimesMasked : IDkgTranscript → IDkgTranscript → IDkgTranscriptOperation
deriving DecidableEq

/-- Immutable specification of one IDKG instance.  Dealer and receiver sets are ordered
lists (the zero-based position is the dealer or receiver index). -/
structure IDkgTranscriptParams where
  transcript_id : TranscriptId
  dealers : List NodeId
  receivers : List NodeId
  registry_version : ℕ
  algorithm_id : ℕ
  operation_type : IDkgTranscriptOperation
deriving DecidableEq

/-- Corruption bound `f = (n - 1) / 3` derived from the receiver count. -/
def faultBound (n : ℕ) : ℕ := (n - 1) / 3

/-- Reconstruction threshold `f + 1` (polynomial degree plus one). -/
def reconstructionThreshold (n : ℕ) : ℕ := faultBound n + 1

/-- Verification threshold `2 f + 1`: minimum multi-signature signers per dealing. -/
def verificationThreshold (n : ℕ) : ℕ := 2 * faultBound n + 1

/-- Collection threshold: minimum distinct dealings to assemble a transcript
(`f + 1` for random sharings, `2 f + 1` for reshare and product operations). -/
def IDkgTranscriptParams.collection_threshold (params : IDkgTranscriptParams) : ℕ :=
  match params.operation_type with
  | .Random => faultBound params.receivers.length + 1
  | _ => 2 * faultBound params.receivers.length + 1

def IDkgTranscriptParams.verification_threshold (params : IDkgTranscriptParams) : ℕ :=
  verificationThreshold params.receivers.length

def IDkgTranscriptParams.reconstruction_threshold (params : IDkgTranscriptParams) : ℕ :=
  reconstructionThreshold params.receivers.length

/-- The content of `internal_complaint_raw`: the NIZK proof that the complainer
decrypted its ciphertext entry correctly, modelled as the MEGa shared secret between the
ephemeral key of the accused dealing and the complainer. -/
structure IDkgComplaintInternal where
  shared_secret : Fq
deriving DecidableEq

structure IDkgComplaint where
  transcript_id : TranscriptId
  dealer_id : NodeId
  internal_complaint_raw : IDkgComplaintInternal
deriving DecidableEq

structure IDkgOpening where
  transcript_id : TranscriptId
  dealer_id : NodeId
  internal_opening_raw : Fq
deriving DecidableEq

/-- The registry external collaborator: MEGa public key lookup per node (the registry
version is fixed by the surrounding call). -/
def Registry : Type := NodeId → Option Fq

/-- The per-node key-material store: the combined threshold share of each loaded
transcript, keyed by transcript id. -/
def KeyStore : Type := List (TranscriptId × Fq)

def storeLookup (store : KeyStore) (tid : TranscriptId) : Option Fq :=
  (List.find? (fun e => e.1 == tid) store).map Prod.snd

def storeInsert (store : KeyStore) (tid : TranscriptId) (v : Fq) : KeyStore :=
  (tid, v) :: store

@[simp] theorem storeLookup_storeInsert (store : KeyStore) (tid : TranscriptId) (v : Fq) :
    storeLookup (storeInsert store tid v) tid = some v := by
  simp [storeLookup, storeInsert, List.find?]

/-! ## Error types (section 7 of the spec) -/

inductive IDkgCreateDealingError where
  | NotADealer : NodeId → IDkgCreateDealingError
  | PublicKeyNotFound : NodeId → IDkgCreateDealingError
  | SecretSharesNotFound : TranscriptId → IDkgCreateDealingError
  | InternalError : String → IDkgCreateDealingError
deriving DecidableEq

inductive IDkgCreateTranscriptError where
  | UnsatisfiedCollectionThreshold : (threshold : ℕ) → (dealing_count : ℕ) →
      IDkgCreateTranscriptError
  | DealerNotAllowed : NodeId → IDkgCreateTranscriptError
  | SignerNotAllowed : NodeId → IDkgCreateTranscriptError
  | UnsatisfiedVerificationThreshold : (threshold : ℕ) → (signature_count : ℕ) →
      (dealer_id : NodeId) → IDkgCreateTranscriptError
  | InvalidMultisignature : IDkgCreateTranscriptError
  | InvalidDealing : NodeId → IDkgCreateTranscriptError
deriving DecidableEq

inductive IDkgLoadTranscriptError where
  | SerializationError : String → IDkgLoadTranscriptError
  | InternalError : String → IDkgLoadTranscriptError
deriving DecidableEq

inductive IDkgVerifyComplaintError where
  | InvalidComplaint : IDkgVerifyComplaintError
  | InvalidArgumentMismatchingTranscriptIDs : IDkgVerifyComplaintError
  | InvalidArgumentMissingComplainerInTranscript : NodeId → IDkgVerifyComplaintError
  | InvalidArgumentMissingDealingInTranscript : NodeId → IDkgVerifyComplaintError
deriving DecidableEq

inductive IDkgOpenTranscriptError where
  | InternalError : String → IDkgOpenTranscriptError
  | InvalidTranscript : IDkgOpenTranscriptError
  | MissingDealingInTranscript : NodeId → IDkgOpenTranscriptError
  | NotAReceiver : IDkgOpenTranscriptError
deriving DecidableEq

inductive IDkgVerifyTranscriptError where
  | InvalidArgument : String → IDkgVerifyTranscriptError
  | InvalidTranscript : IDkgVerifyTranscriptError
deriving DecidableEq

inductive ThresholdEcdsaSignShareError where
  | NotAReceiver : ThresholdEcdsaSignShareError
  | SecretSharesNotFound : TranscriptId → ThresholdEcdsaSignShareError
deriving DecidableEq

inductive ThresholdEcdsaCombineSigSharesError where
  | UnsatisfiedReconstructionThreshold : (threshold : ℕ) → (share_count : ℕ) →
      ThresholdEcdsaCombineSigSharesError
  | InternalError : String → ThresholdEcdsaCombineSigSharesError
deriving DecidableEq

inductive ThresholdEcdsaVerifyCombinedSignatureError where
  | InvalidSignature : ThresholdEcdsaVerifyCombinedSignatureError
  | MalformedSignature : ThresholdEcdsaVerifyCombinedSignatureError
deriving DecidableEq

/-! ## Dealing engine (spec section 4.1); the `dealing` module is not in the source
tree, so these are modelled from the spec. -/

/-- The MEGa public (and, in the discrete-logarithm abstraction, secret) key of the
receiver at index `i`. -/
def megaRecvKey (i : ℕ) : Fq := ((i + 1 : ℕ) : Fq)

/-- Modelled from the spec: the ephemeral MEGa scalar of a dealing, derived by a keyed
hash from the seed, the dealer and the transcript id. -/
def ephKeyOf (seed : ℕ) (dealer : NodeId) (tid : TranscriptId) : Fq :=
  ((seed + 31 * dealer + 977 * tid + 1 : ℕ) : Fq)

/-- Modelled from the spec: MEGa encryption of the shares `p(i + 1)` of polynomial `p`
to each of `n` receivers under ephemeral key `e`. -/
def mkMEGaCiphertext (p : List Fq) (e : Fq) (n : ℕ) : MEGaCiphertext :=
  { ephemeral_key := e
    ctexts := (List.range n).map (fun i => evalPoly p (evalPoint i) + e * megaRecvKey i) }

/-- Modelled from the spec: the sharing polynomial of a dealing, of degree
`k - 1 = reconstruction_threshold - 1`, with prescribed constant term. -/
def samplePoly (c0 : Fq) (seed : ℕ) (dealer : NodeId) (k : ℕ) : List Fq :=
  c0 :: (List.range (k - 1)).map (fun i => ((seed + 13 * dealer + 7 * i + 3 : ℕ) : Fq))

/-- Modelled from the spec (the `dealing` module is not in the source tree):
`create_dealing` checks, in order, that the caller is a dealer (`NotADealer`), that every
receiver has a registered MEGa public key (`PublicKeyNotFound`), and that the caller
holds its share of any referenced prior transcript (`SecretSharesNotFound`); it then
shares a secret determined by the operation type over a fresh polynomial, encrypts the
receiver shares and serializes commitment and ciphertext into the dealing. -/
def create_dealing (params : IDkgTranscriptParams) (caller : NodeId) (registry : Registry)
    (store : KeyStore) (seed : ℕ) : Except IDkgCreateDealingError IDkgDealing :=
  if caller ∉ params.dealers then .error (.NotADealer caller)
  else
    match params.receivers.find? (fun r => (registry r).isNone) with
    | some r => .error (.PublicKeyNotFound r)
    | none =>
      let secretRes : Except IDkgCreateDealingError Fq :=
        match params.operation_type with
        | .Random => .ok ((seed + 5 : ℕ) : Fq)
        | .ReshareOfMasked prev =>
          match storeLookup store prev.transcript_id with
          | none => .error (.SecretSharesNotFound prev.transcript_id)
          | some s => .ok s
        | .ReshareOfUnmasked prev =>
          match storeLookup store prev.transcript_id with
          | none => .error (.SecretSharesNotFound prev.transcript_id)
          | some s => .ok s
        | .UnmaskedTimesMasked t1 t2 =>
          match storeLookup store t1.transcript_id with
          | none => .error (.SecretSharesNotFound t1.transcript_id)
          | some s1 =>
            match storeLookup store t2.transcript_id with
            | none => .error (.SecretSharesNotFound t2.transcript_id)
            | some s2 => .ok (s1 * s2)
      match secretRes with
      | .error e => .error e
      | .ok c0 =>
        let p := samplePoly c0 seed caller (reconstructionThreshold params.receivers.length)
        .ok { transcript_id := params.transcript_id
              dealer_id := caller
              internal_dealing_raw :=
                { commitment := p
                  ciphertext := mkMEGaCiphertext p (ephKeyOf seed caller params.transcript_id)
                      params.receivers.length } }

/-- Modelled from the spec: public verification of a dealing checks the transcript id,
the dealer id, dealer membership, the ciphertext arity (one entry per receiver), and the
NIZK proof tying ciphertext and commitment together (symbolically: every entry encrypts
the committed share of its receiver index under the ciphertext ephemeral key). -/
def verify_dealing_public_spec (params : IDkgTranscriptParams) (dealer_id : NodeId)
    (dealing : IDkgDealing) : Bool :=
  let internal := dealing.internal_dealing_raw
  dealing.transcript_id == params.transcript_id &&
  dealing.dealer_id == dealer_id &&
  params.dealers.contains dealer_id &&
  internal.ciphertext.ctexts.length == params.receivers.length &&
  (List.range params.receivers.length).all (fun i =>
    internal.ciphertext.ctexts.getD i 0 ==
      evalPoly internal.commitment (evalPoint i) +
        internal.ciphertext.ephemeral_key * megaRecvKey i)

/-- Embedded from the source: per the doc comment of the `IDkgProtocol` impl in
`src/rs/crypto/src/sign/canister_threshold_sig/idkg.rs` ("Currently, these are
implemented with noop stubs, while the true implementation is in progress") and the test
`should_run_verify_dealing_public`, the shipped public dealing verification accepts every
input. -/
def verify_dealing_public_impl (_params : IDkgTranscriptParams)
    (_dealing : IDkgDealing) : Except Unit Unit :=
  .ok ()

/-! ## Transcript engine (spec section 4.2); the `transcript` module is not in the
source tree, so these are modelled from the spec. -/

/-- Pointwise sum of two coefficient lists. -/
def addPolys (p1 p2 : List Fq) : List Fq :=
  List.zipWithAll (fun a b => a.getD 0 + b.getD 0) p1 p2

/-- Modelled from the spec: the deterministic homomorphic aggregation producing
`internal_transcript_raw` from the verified dealings: the aggregate commitment is the
pointwise sum of the dealer commitments, next to the per-dealer commitment list. -/
def aggregateDealings (ds : List (ℕ × IDkgMultiSignedDealing)) : IDkgTranscriptInternal :=
  { combined_commitment :=
      ds.foldr (fun d acc => addPolys d.2.dealing.idkg_dealing.internal_dealing_raw.commitment acc) []
    dealer_commitments :=
      ds.map (fun d => (d.1, d.2.dealing.idkg_dealing.internal_dealing_raw.commitment)) }

/-- Modelled from the spec: the idealized multi-signature verification contract. -/
def multisigVerify (sig : CombinedMultiSig) (msg : EcdsaDealing) (signers : List NodeId) : Bool :=
  sig.signed_content == msg && sig.signed_by == signers

/-- The transcript type induced by the operation type. -/
def transcriptTypeOf (op : IDkgTranscriptOperation) : IDkgTranscriptType :=
  match op with
  | .Random => .Masked .Random
  | .ReshareOfMasked prev => .Unmasked (.ReshareMasked prev.transcript_id)
  | .ReshareOfUnmasked prev => .Unmasked (.ReshareUnmasked prev.transcript_id)
  | .UnmaskedTimesMasked t1 t2 => .Masked (.UnmaskedTimesMasked t1.transcript_id t2.transcript_id)

/-- Modelled from the spec (the `transcript` module is not in the source tree):
`create_transcript` performs the ordered checks — collection threshold first
(`UnsatisfiedCollectionThreshold`), then dealer membership (`DealerNotAllowed`), signer
membership (`SignerNotAllowed`), per-dealing signer count
(`UnsatisfiedVerificationThreshold`), multi-signature validity (`InvalidMultisignature`)
and public dealing validity — and then aggregates the dealings, reindexed by dealer
index, into the transcript. -/
def create_transcript (params : IDkgTranscriptParams)
    (dealings : List (NodeId × IDkgMultiSignedDealing)) :
    Except IDkgCreateTranscriptError IDkgTranscript :=
  if dealings.length < params.collection_threshold then
    .error (.UnsatisfiedCollectionThreshold params.collection_threshold dealings.length)
  else
    match dealings.find? (fun d => !(params.dealers.contains d.1)) with
    | some d => .error (.DealerNotAllowed d.1)
    | none =>
      match dealings.findSome?
          (fun d => d.2.signers.find? (fun s => !(params.receivers.contains s))) with
      | some s => .error (.SignerNotAllowed s)
      | none =>
        match dealings.find?
            (fun d => d.2.signers.length < params.verification_threshold) with
        | some d => .error (.UnsatisfiedVerificationThreshold params.verification_threshold
            d.2.signers.length d.1)
        | none =>
          match dealings.find?
              (fun d => !(multisigVerify d.2.signature d.2.dealing d.2.signers)) with
          | some _ => .error .InvalidMultisignature
          | none =>
            match dealings.find?
                (fun d => !(verify_dealing_public_spec params d.1 d.2.dealing.idkg_dealing)) with
            | some d => .error (.InvalidDealing d.1)
            | none =>
              let reindexed := (dealings.map
                  (fun d => (params.dealers.indexOf d.1, d.2))).mergeSort
                  (fun a b => a.1 ≤ b.1)
              .ok { transcript_id := params.transcript_id
                    receivers := params.receivers
                    registry_version := params.registry_version
                    verified_dealings := reindexed
                    transcript_type := transcriptTypeOf params.operation_type
                    algorithm_id := params.algorithm_id
                    internal_transcript_raw := aggregateDealings reindexed }

/-- Modelled from the spec: the core transcript consistency check re-running the
deterministic aggregation on the verified dealings and comparing it with
`internal_transcript_raw`. -/
def verifyTranscriptCore (t : IDkgTranscript) : Bool :=
  aggregateDealings t.verified_dealings == t.internal_transcript_raw

/-- Modelled from the spec: `verify_transcript` checks params/transcript consistency and
re-runs the deterministic aggregation. -/
def verify_transcript (params : IDkgTranscriptParams) (t : IDkgTranscript) :
    Except IDkgVerifyTranscriptError Unit :=
  if t.transcript_id ≠ params.transcript_id ∨ t.receivers ≠ params.receivers ∨
      t.registry_version ≠ params.registry_version ∨ t.algorithm_id ≠ params.algorithm_id ∨
      t.transcript_type ≠ transcriptTypeOf params.operation_type then
    .error (.InvalidArgument "mismatching transcript params")
  else if verifyTranscriptCore t then .ok ()
  else .error .InvalidTranscript

/-- MEGa decryption of ciphertext entry `j` by the receiver at index `j`. -/
def decryptShare (ct : MEGaCiphertext) (j : ℕ) : Fq :=
  ct.ctexts.getD j 0 - ct.ephemeral_key * megaRecvKey j

/-- The complaint a receiver at index `j` files against a dealing whose entry does not
decrypt to the committed share: the NIZK proof is the MEGa shared secret the complainer
derived from the ephemeral key of the accused dealing. -/
def mkComplaint (tid : TranscriptId) (j : ℕ) (dealer : NodeId) (e : Fq) : IDkgComplaint :=
  { transcript_id := tid
    dealer_id := dealer
    internal_complaint_raw := { shared_secret := e * megaRecvKey j } }

/-- The per-dealing step of `load_transcript` for the receiver at index `j`: either the
decrypted share (consistent with the commitment) or a complaint. -/
def loadDealingStep (tid : TranscriptId) (j : ℕ) (sd : IDkgMultiSignedDealing) :
    Sum Fq IDkgComplaint :=
  let internal := sd.dealing.idkg_dealing.internal_dealing_raw
  let dec := decryptShare internal.ciphertext j
  if dec = evalPoly internal.commitment (evalPoint j) then .inl dec
  else .inr (mkComplaint tid j sd.dealing.idkg_dealing.dealer_id
      internal.ciphertext.ephemeral_key)

/-- Modelled from the spec (the `transcript` module is not in the source tree):
`load_transcript` is a no-op success for a non-receiver; otherwise it decrypts the
caller entry of every verified dealing, verifies it against the commitment, files a
complaint for every failing dealing, combines the successfully decrypted shares into the
caller threshold share and stores it under the transcript id. -/
def sumComplaint : Sum Fq IDkgComplaint → Option IDkgComplaint
  | .inr c => some c
  | .inl _ => none

def sumShare : Sum Fq IDkgComplaint → Option Fq
  | .inl s => some s
  | .inr _ => none

def load_transcript (caller : NodeId) (store : KeyStore) (t : IDkgTranscript) :
    Except IDkgLoadTranscriptError (List IDkgComplaint × KeyStore) :=
  if caller ∉ t.receivers then .ok ([], store)
  else
    let j := t.receivers.indexOf caller
    let results := t.verified_dealings.map (fun d => loadDealingStep t.transcript_id j d.2)
    let complaints := results.filterMap sumComplaint
    let shares := results.filterMap sumShare
    .ok (complaints, storeInsert store t.transcript_id (shares.foldr (· + ·) 0))

/-! ## Complaint engine (spec section 4.2/4.3); the `complaint` module is not in the
source tree, so these are modelled from the spec. -/

/-- Modelled from the spec (the `complaint` module is not in the source tree):
`verify_complaint` checks that the complaint concerns this transcript, locates the
accused dealing by dealer id, verifies the NIZK decryption proof against the ephemeral
key of that dealing and the complainer MEGa key, and confirms that the decrypted value
indeed contradicts the commitment; any failing check yields `InvalidComplaint` (missing
complainer or dealer yield the corresponding argument errors). -/
def verify_complaint (t : IDkgTranscript) (complainer_id : NodeId) (c : IDkgComplaint) :
    Except IDkgVerifyComplaintError Unit :=
  if c.transcript_id ≠ t.transcript_id then .error .InvalidArgumentMismatchingTranscriptIDs
  else if complainer_id ∉ t.receivers then
    .error (.InvalidArgumentMissingComplainerInTranscript complainer_id)
  else
    let j := t.receivers.indexOf complainer_id
    match t.verified_dealings.find?
        (fun d => d.2.dealing.idkg_dealing.dealer_id == c.dealer_id) with
    | none => .error (.InvalidArgumentMissingDealingInTranscript c.dealer_id)
    | some d =>
      let internal := d.2.dealing.idkg_dealing.internal_dealing_raw
      if c.internal_complaint_raw.shared_secret ≠
          internal.ciphertext.ephemeral_key * megaRecvKey j then .error .InvalidComplaint
      else if internal.ciphertext.ctexts.getD j 0 - c.internal_complaint_raw.shared_secret =
          evalPoly internal.commitment (evalPoint j) then .error .InvalidComplaint
      else .ok ()

/-- Modelled from the spec and the design note (section 9): `open_transcript` first runs
the inner transcript verification, surfacing its failure as `InternalError`; it then
requires the caller to be a receiver holding the accused dealing and produces the opening
from its decrypted share. -/
def open_transcript (caller : NodeId) (t : IDkgTranscript) (complainer_id : NodeId)
    (c : IDkgComplaint) : Except IDkgOpenTranscriptError IDkgOpening :=
  if ¬ verifyTranscriptCore t then
    .error (.InternalError "open_transcript: invalid transcript")
  else if caller ∉ t.receivers then .error .NotAReceiver
  else if complainer_id ∉ t.receivers then
    .error (.InternalError "open_transcript: complainer is not a receiver")
  else
    match t.verified_dealings.find?
        (fun d => d.2.dealing.idkg_dealing.dealer_id == c.dealer_id) with
    | none => .error (.MissingDealingInTranscript c.dealer_id)
    | some d =>
      .ok { transcript_id := t.transcript_id
            dealer_id := c.dealer_id
            internal_opening_raw :=
              decryptShare d.2.dealing.idkg_dealing.internal_dealing_raw.ciphertext
                (t.receivers.indexOf caller) }

/-! ## Signing engine (spec section 4.4); the signing modules are not in the source
tree, so these are modelled from the spec, per the Gennaro-Goldfeder threshold ECDSA
construction the spec cites.  An honestly produced and loaded transcript is idealized by
its sharing polynomial: the share of the receiver at index `i` is the polynomial
evaluated at `i + 1`, and the public value of an unmasked transcript is its constant
term (in the discrete-logarithm abstraction of the model). -/

structure ExtendedDerivationPath where
  caller : ℕ
  derivation_path : List (List ℕ)
deriving DecidableEq

/-- Modelled from the spec: the deterministic BIP32-style additive tweak derived from
the extended derivation path. -/
def pathTweak (edp : ExtendedDerivationPath) : Fq :=
  ((edp.caller +
      edp.derivation_path.foldl (fun a bs => a * 33 + bs.foldl (fun x y => x * 257 + y) 1) 0 : ℕ) : Fq)

/-- Modelled from the spec: threshold ECDSA signature inputs.  The five honestly
produced and loaded transcripts of the claim are idealized by their sharing polynomials
(`kappa_unmasked`, `lambda_masked`, `kappa_times_lambda`, `key_times_lambda`,
`key_transcript`); all five share the receiver set. -/
structure ThresholdEcdsaSigInputs where
  derivation_path : ExtendedDerivationPath
  hashed_message : Fq
  nonce : ℕ
  receivers : List NodeId
  kappa_unmasked : List Fq
  lambda_masked : List Fq
  kappa_times_lambda : List Fq
  key_times_lambda : List Fq
  key_transcript : List Fq
deriving DecidableEq

def ThresholdEcdsaSigInputs.reconstruction_threshold (inputs : ThresholdEcdsaSigInputs) : ℕ :=
  reconstructionThreshold inputs.receivers.length

/-- Modelled from the spec: the master public key of the (unmasked) key transcript, in
the discrete-logarithm abstraction its constant term. -/
def master_public_key (inputs : ThresholdEcdsaSigInputs) : Fq :=
  evalPoly inputs.key_transcript 0

/-- Modelled from the spec: BIP32-unhardened public key derivation, adding the path
tweak to the master key. -/
def derive_public_key (master : Fq) (edp : ExtendedDerivationPath) : Fq :=
  master + pathTweak edp

/-- The `r` scalar of the signature: the x-coordinate of the public nonce point of the
unmasked `kappa` transcript. -/
def sigR (inputs : ThresholdEcdsaSigInputs) : Fq :=
  xcoord (evalPoly inputs.kappa_unmasked 0)

/-- A threshold ECDSA signature share: the numerator share
`lambda_i * m + (key_times_lambda_i + tweak * lambda_i) * r` and the denominator share
`kappa_times_lambda_i`, per the Gennaro-Goldfeder construction with the derivation
tweak folded into the key share. -/
structure ThresholdEcdsaSigShare where
  numerator_share : Fq
  denominator_share : Fq
deriving DecidableEq

/-- The share the receiver `caller` computes from its loaded transcript shares. -/
def honestSigShare (inputs : ThresholdEcdsaSigInputs) (caller : NodeId) :
    ThresholdEcdsaSigShare :=
  let i := inputs.receivers.indexOf caller
  let pt := evalPoint i
  let r := sigR inputs
  let tw := pathTweak inputs.derivation_path
  { numerator_share := evalPoly inputs.lambda_masked pt * inputs.hashed_message +
      (evalPoly inputs.key_times_lambda pt + tw * evalPoly inputs.lambda_masked pt) * r
    denominator_share := evalPoly inputs.kappa_times_lambda pt }

/-- Modelled from the spec: `sign_share` requires the caller to be a receiver and
computes its signature share from its loaded transcript shares. -/
def sign_share (inputs : ThresholdEcdsaSigInputs) (caller : NodeId) :
    Except ThresholdEcdsaSignShareError ThresholdEcdsaSigShare :=
  if caller ∉ inputs.receivers then .error .NotAReceiver
  else .ok (honestSigShare inputs caller)

/-- The 64-byte combined threshold ECDSA signature: `r` concatenated with `s`, each
32 bytes big-endian, low-s normalized. -/
structure ThresholdEcdsaCombinedSignature where
  signature : List ℕ
deriving DecidableEq

/-- Serialization of the two signature scalars into the 64-byte `r ∥ s` format. -/
def sigToBytes (r s : Fq) : List ℕ :=
  natToBytesBE 32 r.val ++ natToBytesBE 32 s.val

/-- Lagrange combination of per-signer values at zero: the signer node ids determine
the evaluation points through their receiver indices, and the values are summed with the
Lagrange coefficients at zero over that point set. -/
def lagrangeCombine (inputs : ThresholdEcdsaSigInputs) (shares : List (NodeId × Fq)) : Fq :=
  let ptOf : NodeId → Fq := fun v => evalPoint (inputs.receivers.indexOf v)
  let pts : Finset Fq := (shares.map (fun sh => ptOf sh.1)).toFinset
  (shares.map (fun sh => lagCoeff0 pts (ptOf sh.1) * sh.2)).sum

/-- Modelled from the spec: `combine_sig_shares` requires at least
`reconstruction_threshold` shares (`UnsatisfiedReconstructionThreshold` otherwise),
Lagrange-combines the numerator and denominator shares at the signer indices to recover
`s`, takes `r` from the kappa x-coordinate, and outputs the 64-byte low-s signature. -/
def combine_sig_shares (inputs : ThresholdEcdsaSigInputs)
    (shares : List (NodeId × ThresholdEcdsaSigShare)) :
    Except ThresholdEcdsaCombineSigSharesError ThresholdEcdsaCombinedSignature :=
  if shares.length < inputs.reconstruction_threshold then
    .error (.UnsatisfiedReconstructionThreshold inputs.reconstruction_threshold shares.length)
  else
    let num := lagrangeCombine inputs (shares.map (fun sh => (sh.1, sh.2.numerator_share)))
    let den := lagrangeCombine inputs (shares.map (fun sh => (sh.1, sh.2.denominator_share)))
    let s := lowS (num * den⁻¹)
    .ok { signature := sigToBytes (sigR inputs) s }

/-- The scalar-level ECDSA verification equation of the model: with public key `x`
(discrete-logarithm abstraction), message `m` and signature `(r, s)`, accept when `r`
and `s` are nonzero and the x-coordinate of the recovered nonce point
`(m + r * x) / s` equals `r`. -/
def ecdsaVerifyScalar (m x r s : Fq) : Bool :=
  !(r == 0) && !(s == 0) && (xcoord ((m + r * x) * s⁻¹) == r)

/-- Modelled from the spec: `verify_combined_sig` parses the 64-byte signature and runs
standard ECDSA verification under the public key derived from the master key of the key
transcript and the derivation path. -/
def verify_combined_sig (inputs : ThresholdEcdsaSigInputs)
    (sig : ThresholdEcdsaCombinedSignature) :
    Except ThresholdEcdsaVerifyCombinedSignatureError Unit :=
  if sig.signature.length ≠ 64 then .error .MalformedSignature
  else
    let r : Fq := ((bytesToNatBE (sig.signature.take 32) : ℕ) : Fq)
    let s : Fq := ((bytesToNatBE (sig.signature.drop 32) : ℕ) : Fq)
    if ecdsaVerifyScalar inputs.hashed_message
        (derive_public_key (master_public_key inputs) inputs.derivation_path) r s then .ok ()
    else .error .InvalidSignature

/-- The reference standard secp256k1 ECDSA verifier of the model (the
`ecdsa_secp256k1::api::verify` call of the tests), taking the raw 64-byte signature, the
hashed message and the public key. -/
def secp256k1_ecdsa_verify (sigBytes : List ℕ) (m : Fq) (pubkey : Fq) : Bool :=
  sigBytes.length == 64 &&
    ecdsaVerifyScalar m pubkey ((bytesToNatBE (sigBytes.take 32) : ℕ) : Fq)
      ((bytesToNatBE (sigBytes.drop 32) : ℕ) : Fq)

/-! ## The `IDkgProtocol` impl of `CryptoComponentFatClient`, embedded from
`src/rs/crypto/src/sign/canister_threshold_sig/idkg.rs`.  Every method builds a scoped
logger, logs a start event, records the start time, calls the corresponding inner engine
function, records the call duration in the metrics and logs an end event before
returning the inner result.  The logger and the metrics sink are external collaborators;
they are modelled as an explicit instrumentation state threaded through each method.
The inner engine modules (`dealing`, `transcript`, `complaint`, `retain_active_keys`)
are not part of the source tree, so their functions are abstract fields of the client. -/

/-- The instrumentation state: the logger sink, the metrics observations
(method name and duration) and the clock read by `metrics.now()`. -/
structure InstrState where
  log : List String
  observations : List (String × ℕ)
  clock : ℕ

def InstrState.now (st : InstrState) : ℕ := st.clock

def InstrState.debugLog (st : InstrState) (msg : String) : InstrState :=
  { st with log := msg :: st.log }

def InstrState.observeFullDurationSeconds (st : InstrState) (method : String)
    (start_time : ℕ) : InstrState :=
  { st with observations := (method, st.clock - start_time) :: st.observations }

/-- The inner engine functions called by the `IDkgProtocol` impl, one field per call
site of `idkg.rs`, with the argument lists of the source (`csp`, `node_id`,
`registry_client` and the method arguments). -/
structure IDkgEngine (Csp : Type) where
  dealing_create_dealing : Csp → NodeId → Registry → IDkgTranscriptParams →
    Except IDkgCreateDealingError IDkgDealing
  dealing_verify_dealing_public : Csp → IDkgTranscriptParams → NodeId → IDkgDealing →
    Except Unit Unit
  dealing_verify_dealing_private : Csp → NodeId → Registry → IDkgTranscriptParams →
    NodeId → IDkgDealing → Except Unit Unit
  transcript_create_transcript : Csp → Registry → IDkgTranscriptParams →
    List (NodeId × IDkgMultiSignedDealing) → Except IDkgCreateTranscriptError IDkgTranscript
  transcript_verify_transcript : Csp → Registry → IDkgTranscriptParams → IDkgTranscript →
    Except IDkgVerifyTranscriptError Unit
  transcript_load_transcript : Csp → NodeId → Registry → IDkgTranscript →
    Except IDkgLoadTranscriptError (List IDkgComplaint)
  complaint_verify_complaint : Csp → Registry → IDkgTranscript → IDkgComplaint → NodeId →
    Except IDkgVerifyComplaintError Unit
  transcript_open_transcript : Csp → NodeId → Registry → IDkgTranscript → NodeId →
    IDkgComplaint → Except IDkgOpenTranscriptError IDkgOpening
  transcript_verify_opening : Csp → IDkgTranscript → NodeId → IDkgOpening → IDkgComplaint →
    Except Unit Unit
  transcript_load_transcript_with_openings : Csp → NodeId → Registry → IDkgTranscript →
    List (IDkgComplaint × List (NodeId × IDkgOpening)) → Except IDkgLoadTranscriptError Unit
  retain_active_keys_retain_active_transcripts : Csp → List IDkgTranscript → Except Unit Unit

/-- The crypto component: node id, registry client, CSP and the inner engine. -/
structure CryptoComponentFatClient (Csp : Type) where
  csp : Csp
  node_id : NodeId
  registry_client : Registry
  engine : IDkgEngine Csp

namespace CryptoComponentFatClient

variable {Csp : Type}

def create_dealing (c : CryptoComponentFatClient Csp) (st : InstrState)
    (params : IDkgTranscriptParams) :
    Except IDkgCreateDealingError IDkgDealing × InstrState :=
  let st := st.debugLog "IDkgProtocol.create_dealing: start"
  let start_time := st.now
  let result := c.engine.dealing_create_dealing c.csp c.node_id c.registry_client params
  let st := st.observeFullDurationSeconds "create_dealing" start_time
  let st := st.debugLog (if result.isOk then "IDkgProtocol.create_dealing: end, ok"
    else "IDkgProtocol.create_dealing: end, error")
  (result, st)

def verify_dealing_public (c : CryptoComponentFatClient Csp) (st : InstrState)
    (params : IDkgTranscriptParams) (dealer_id : NodeId) (dealing : IDkgDealing) :
    Except Unit Unit × InstrState :=
  let st := st.debugLog "IDkgProtocol.verify_dealing_public: start"
  let start_time := st.now
  let result := c.engine.dealing_verify_dealing_public c.csp params dealer_id dealing
  let st := st.observeFullDurationSeconds "verify_dealing_public" start_time
  let st := st.debugLog (if result.isOk then "IDkgProtocol.verify_dealing_public: end, ok"
    else "IDkgProtocol.verify_dealing_public: end, error")
  (result, st)

def verify_dealing_private (c : CryptoComponentFatClient Csp) (st : InstrState)
    (params : IDkgTranscriptParams) (dealer_id : NodeId) (dealing : IDkgDealing) :
    Except Unit Unit × InstrState :=
  let st := st.debugLog "IDkgProtocol.verify_dealing_private: start"
  let start_time := st.now
  let result := c.engine.dealing_verify_dealing_private c.csp c.node_id c.registry_client
    params dealer_id dealing
  let st := st.observeFullDurationSeconds "verify_dealing_private" start_time
  let st := st.debugLog (if result.isOk then "IDkgProtocol.verify_dealing_private: end, ok"
    else "IDkgProtocol.verify_dealing_private: end, error")
  (result, st)

def create_transcript (c : CryptoComponentFatClient Csp) (st : InstrState)
    (params : IDkgTranscriptParams) (dealings : List (NodeId × IDkgMultiSignedDealing)) :
    Except IDkgCreateTranscriptError IDkgTranscript × InstrState :=
  let st := st.debugLog "IDkgProtocol.create_transcript: start"
  let start_time := st.now
  let result := c.engine.transcript_create_transcript c.csp c.registry_client params dealings
  let st := st.observeFullDurationSeconds "create_transcript" start_time
  let st := st.debugLog (if result.isOk then "IDkgProtocol.create_transcript: end, ok"
    else "IDkgProtocol.create_transcript: end, error")
  (result, st)

def verify_transcript (c : CryptoComponentFatClient Csp) (st : InstrState)
    (params : IDkgTranscriptParams) (transcript : IDkgTranscript) :
    Except IDkgVerifyTranscriptError Unit × InstrState :=
  let st := st.debugLog "IDkgProtocol.verify_transcript: start"
  let start_time := st.now
  let result := c.engine.transcript_verify_transcript c.csp c.registry_client params transcript
  let st := st.observeFullDurationSeconds "verify_transcript" start_time
  let st := st.debugLog (if result.isOk then "IDkgProtocol.verify_transcript: end, ok"
    else "IDkgProtocol.verify_transcript: end, error")
  (result, st)

def load_transcript (c : CryptoComponentFatClient Csp) (st : InstrState)
    (transcript : IDkgTranscript) :
    Except IDkgLoadTranscriptError (List IDkgComplaint) × InstrState :=
  let st := st.debugLog "IDkgProtocol.load_transcript: start"
  let start_time := st.now
  let result := c.engine.transcript_load_transcript c.csp c.node_id c.registry_client transcript
  let st := st.observeFullDurationSeconds "load_transcript" start_time
  let st := st.debugLog (if result.isOk then "IDkgProtocol.load_transcript: end, ok"
    else "IDkgProtocol.load_transcript: end, error")
  (result, st)

def verify_complaint (c : CryptoComponentFatClient Csp) (st : InstrState)
    (transcript : IDkgTranscript) (complainer_id : NodeId) (complaint : IDkgComplaint) :
    Except IDkgVerifyComplaintError Unit × InstrState :=
  let st := st.debugLog "IDkgProtocol.verify_complaint: start"
  let start_time := st.now
  let result := c.engine.complaint_verify_complaint c.csp c.registry_client transcript
    complaint complainer_id
  let st := st.observeFullDurationSeconds "verify_complaint" start_time
  let st := st.debugLog (if result.isOk then "IDkgProtocol.verify_complaint: end, ok"
    else "IDkgProtocol.verify_complaint: end, error")
  (result, st)

def open_transcript (c : CryptoComponentFatClient Csp) (st : InstrState)
    (transcript : IDkgTranscript) (complainer_id : NodeId) (complaint : IDkgComplaint) :
    Except IDkgOpenTranscriptError IDkgOpening × InstrState :=
  let st := st.debugLog "IDkgProtocol.open_transcript: start"
  let start_time := st.now
  let result := c.engine.transcript_open_transcript c.csp c.node_id c.registry_client
    transcript complainer_id complaint
  let st := st.observeFullDurationSeconds "open_transcript" start_time
  let st := st.debugLog (if result.isOk then "IDkgProtocol.open_transcript: end, ok"
    else "IDkgProtocol.open_transcript: end, error")
  (result, st)

def verify_opening (c : CryptoComponentFatClient Csp) (st : InstrState)
    (transcript : IDkgTranscript) (opener : NodeId) (opening : IDkgOpening)
    (complaint : IDkgComplaint) : Except Unit Unit × InstrState :=
  let st := st.debugLog "IDkgProtocol.verify_opening: start"
  let start_time := st.now
  let result := c.engine.transcript_verify_opening c.csp transcript opener opening complaint
  let st := st.observeFullDurationSeconds "verify_opening" start_time
  let st := st.debugLog (if result.isOk then "IDkgProtocol.verify_opening: end, ok"
    else "IDkgProtocol.verify_opening: end, error")
  (result, st)

def load_transcript_with_openings (c : CryptoComponentFatClient Csp) (st : InstrState)
    (transcript : IDkgTranscript)
    (openings : List (IDkgComplaint × List (NodeId × IDkgOpening))) :
    Except IDkgLoadTranscriptError Unit × InstrState :=
  let st := st.debugLog "IDkgProtocol.load_transcript_with_openings: start"
  let start_time := st.now
  let result := c.engine.transcript_load_transcript_with_openings c.csp c.node_id
    c.registry_client transcript openings
  let st := st.observeFullDurationSeconds "load_transcript_with_openings" start_time
  let st := st.debugLog (if result.isOk then
    "IDkgProtocol.load_transcript_with_openings: end, ok"
    else "IDkgProtocol.load_transcript_with_openings: end, error")
  (result, st)

def retain_active_transcripts (c : CryptoComponentFatClient Csp) (st : InstrState)
    (active_transcripts : List IDkgTranscript) : Except Unit Unit × InstrState :=
  let transcript_ids := active_transcripts.map (fun t => t.transcript_id)
  let st := st.debugLog ((transcript_ids.map (fun i => toString i)).foldl
    (fun a b => a ++ " " ++ b) "IDkgProtocol.retain_active_transcripts: start,")
  let start_time := st.now
  let result := c.engine.retain_active_keys_retain_active_transcripts c.csp active_transcripts
  let st := st.observeFullDurationSeconds "retain_active_transcripts" start_time
  let st := st.debugLog (if result.isOk then "IDkgProtocol.retain_active_transcripts: end, ok"
    else "IDkgProtocol.retain_active_transcripts: end, error")
  (result, st)

end CryptoComponentFatClient

/-! ## Honestly assembled (and possibly corrupted) transcripts.  `DealerEntry` records
one dealer of a transcript: its dealer index, node id, sharing polynomial and ephemeral
key, together with the ephemeral key actually present in the assembled dealing.  The
corruption of the tests (`corrupt_signed_dealing_for_all_receivers`) replaces only the
`ephemeral_key` field of the ciphertext, leaving the encrypted entries intact: an entry
is corrupted exactly when `eph_used` differs from `eph`. -/

structure DealerEntry where
  idx : ℕ
  did : NodeId
  poly : List Fq
  eph : Fq
  eph_used : Fq
deriving DecidableEq

/-- Whether the ephemeral key of this dealing was corrupted. -/
def DealerEntry.corrupted (d : DealerEntry) : Bool := !(d.eph_used == d.eph)

/-- The verified dealing of one dealer entry within a transcript for `n` receivers:
ciphertext entries encrypted honestly under `eph`, ephemeral key field `eph_used`. -/
def entrySignedDealing (tid : TranscriptId) (n : ℕ) (d : DealerEntry) :
    ℕ × IDkgMultiSignedDealing :=
  let msg : EcdsaDealing :=
    { requested_height := 1
      idkg_dealing :=
        { transcript_id := tid
          dealer_id := d.did
          internal_dealing_raw :=
            { commitment := d.poly
              ciphertext :=
                { ephemeral_key := d.eph_used
                  ctexts := (mkMEGaCiphertext d.poly d.eph n).ctexts } } } }
  (d.idx, { dealing := msg, signers := [], signature := { signed_content := msg, signed_by := [] } })

/-- An honestly assembled transcript over the given dealer entries (with the ephemeral
keys of the entries whose `eph_used` differs from `eph` corrupted afterwards). -/
def mkTestTranscript (tid : TranscriptId) (recv : List NodeId) (entries : List DealerEntry) :
    IDkgTranscript :=
  { transcript_id := tid
    receivers := recv
    registry_version := 1
    verified_dealings := entries.map (entrySignedDealing tid recv.length)
    transcript_type := .Masked .Random
    algorithm_id := 0
    internal_transcript_raw := aggregateDealings (entries.map (entrySignedDealing tid recv.length)) }

theorem megaRecvKey_ne_zero {i : ℕ} (h : i + 1 < Q) : megaRecvKey i ≠ 0 := by
  unfold megaRecvKey
  intro hz
  rw [ZMod.natCast_zmod_eq_zero_iff_dvd] at hz
  exact absurd (Nat.le_of_dvd (by omega) hz) (by omega)

theorem mkMEGaCiphertext_getD (p : List Fq) (e : Fq) {n j : ℕ} (hj : j < n) :
    (mkMEGaCiphertext p e n).ctexts.getD j 0 =
      evalPoly p (evalPoint j) + e * megaRecvKey j := by
  unfold mkMEGaCiphertext
  rw [List.getD_eq_getElem?_getD, List.getElem?_map, List.getElem?_range hj]
  rfl

theorem loadDealingStep_entry (tid : TranscriptId) {n j : ℕ} (hj : j < n) (hkey : j + 1 < Q)
    (d : DealerEntry) :
    loadDealingStep tid j (entrySignedDealing tid n d).2 =
      (if d.eph_used = d.eph then Sum.inl (evalPoly d.poly (evalPoint j))
        else Sum.inr (mkComplaint tid j d.did d.eph_used)) := by
  unfold loadDealingStep entrySignedDealing decryptShare
  simp only
  rw [mkMEGaCiphertext_getD d.poly d.eph hj]
  by_cases hc : d.eph_used = d.eph
  · rw [if_pos (by rw [hc]; ring), if_pos hc]
    rw [hc]
    congr 1
    ring
  · rw [if_neg ?_, if_neg hc]
    intro h
    apply hc
    have h2 : (d.eph - d.eph_used) * megaRecvKey j = 0 := by linear_combination h
    rcases mul_eq_zero.mp h2 with h3 | h3
    · have := sub_eq_zero.mp h3
      exact this.symm
    · exact absurd h3 (megaRecvKey_ne_zero hkey)

theorem filterMap_inr_map_ite {α : Type} (l : List α) (P : α → Prop) [DecidablePred P]
    (f : α → Fq) (g : α → IDkgComplaint) :
    ((l.map (fun d => if P d then Sum.inl (f d) else Sum.inr (g d))).filterMap
      sumComplaint) =
    (l.filter (fun d => !(decide (P d)))).map g := by
  induction l with
  | nil => rfl
  | cons a l ih =>
    by_cases h : P a
    · simp [h, ih, sumComplaint, sumShare]
    · simp [h, ih, sumComplaint, sumShare]

theorem filterMap_inl_map_ite {α : Type} (l : List α) (P : α → Prop) [DecidablePred P]
    (f : α → Fq) (g : α → IDkgComplaint) :
    ((l.map (fun d => if P d then Sum.inl (f d) else Sum.inr (g d))).filterMap
      sumShare) =
    (l.filter (fun d => decide (P d))).map f := by
  induction l with
  | nil => rfl
  | cons a l ih =>
    by_cases h : P a
    · simp [h, ih, sumComplaint, sumShare]
    · simp [h, ih, sumComplaint, sumShare]

/-- Evaluation of `load_transcript` on an honestly assembled transcript with corrupted
entries: the call succeeds, returns one complaint per corrupted entry (in dealing
order), and stores the combined share decrypted from the honest entries. -/
theorem load_transcript_mkTestTranscript (tid : TranscriptId) (recv : List NodeId)
    (entries : List DealerEntry) (caller : NodeId) (store : KeyStore)
    (hmem : caller ∈ recv) (hQ : recv.length < Q) :
    load_transcript caller store (mkTestTranscript tid recv entries) =
      .ok ((entries.filter DealerEntry.corrupted).map
            (fun d => mkComplaint tid (recv.indexOf caller) d.did d.eph_used),
          storeInsert store tid
            (((entries.filter (fun d => !(DealerEntry.corrupted d))).map
              (fun d => evalPoly d.poly (evalPoint (recv.indexOf caller)))).foldr (· + ·) 0)) := by
  have hj : recv.indexOf caller < recv.length := List.indexOf_lt_length.mpr hmem
  have hkey : recv.indexOf caller + 1 < Q := by omega
  have hsteps : (entries.map (entrySignedDealing tid recv.length)).map
      (fun d => loadDealingStep tid (recv.indexOf caller) d.2) =
      entries.map (fun d => if d.eph_used = d.eph then
          Sum.inl (evalPoly d.poly (evalPoint (recv.indexOf caller)))
        else Sum.inr (mkComplaint tid (recv.indexOf caller) d.did d.eph_used)) := by
    rw [List.map_map]
    refine List.map_congr_left ?_
    intro d _
    exact loadDealingStep_entry tid hj hkey d
  unfold load_transcript
  rw [if_neg (by simpa [mkTestTranscript] using hmem)]
  simp only [mkTestTranscript]
  rw [hsteps]
  rw [filterMap_inr_map_ite entries (fun d => d.eph_used = d.eph)
      (fun d => evalPoly d.poly (evalPoint (recv.indexOf caller)))
      (fun d => mkComplaint tid (recv.indexOf caller) d.did d.eph_used),
    filterMap_inl_map_ite entries (fun d => d.eph_used = d.eph)
      (fun d => evalPoly d.poly (evalPoint (recv.indexOf caller)))
      (fun d => mkComplaint tid (recv.indexOf caller) d.did d.eph_used)]
  have hfilter1 : (fun d : DealerEntry => !(decide (d.eph_used = d.eph))) = DealerEntry.corrupted := by
    funext d
    by_cases h : d.eph_used = d.eph <;> simp [DealerEntry.corrupted, h]
  have hfilter2 : (fun d : DealerEntry => decide (d.eph_used = d.eph)) =
      (fun d => !(DealerEntry.corrupted d)) := by
    funext d
    by_cases h : d.eph_used = d.eph <;> simp [DealerEntry.corrupted, h]
  rw [hfilter1, hfilter2]

theorem find?_entry_by_did (tid : TranscriptId) (n : ℕ) (entries : List DealerEntry)
    (d : DealerEntry) (hnodup : (entries.map DealerEntry.did).Nodup) (hd : d ∈ entries) :
    ((entries.map (entrySignedDealing tid n)).find?
      (fun e => e.2.dealing.idkg_dealing.dealer_id == d.did)) =
      some (entrySignedDealing tid n d) := by
  induction entries with
  | nil => cases hd
  | cons a l ih =>
    rw [List.map_cons, List.find?_cons]
    have hdealer : (entrySignedDealing tid n a).2.dealing.idkg_dealing.dealer_id = a.did := rfl
    by_cases h : a.did = d.did
    · have had : d = a := by
        rcases List.mem_cons.mp hd with h1 | h1
        · exact h1
        · exfalso
          have : a.did ∈ l.map DealerEntry.did := h ▸ List.mem_map_of_mem DealerEntry.did h1
          exact (List.nodup_cons.mp hnodup).1 this
      subst had
      simp [hdealer]
    · have hbeq : ((entrySignedDealing tid n a).2.dealing.idkg_dealing.dealer_id == d.did) = false := by
        rw [hdealer]
        exact beq_eq_false_iff_ne.mpr h
      rw [hbeq]
      exact ih (List.nodup_cons.mp hnodup).2
        (by rcases List.mem_cons.mp hd with h1 | h1
            · exact absurd (h1 ▸ rfl) h
            · exact h1)

/-- A complaint produced by `load_transcript` against a corrupted dealing verifies. -/
theorem verify_complaint_corrupted_ok (tid : TranscriptId) (recv : List NodeId)
    (entries : List DealerEntry) (complainer : NodeId) (d : DealerEntry)
    (hmem : complainer ∈ recv) (hQ : recv.length < Q)
    (hnodup : (entries.map DealerEntry.did).Nodup) (hd : d ∈ entries)
    (hcor : d.eph_used ≠ d.eph) :
    verify_complaint (mkTestTranscript tid recv entries) complainer
      (mkComplaint tid (recv.indexOf complainer) d.did d.eph_used) = .ok () := by
  have hj : recv.indexOf complainer < recv.length := List.indexOf_lt_length.mpr hmem
  have hkey : recv.indexOf complainer + 1 < Q := by omega
  unfold verify_complaint
  rw [if_neg (by simp [mkTestTranscript, mkComplaint])]
  rw [if_neg (by simpa [mkTestTranscript] using hmem)]
  simp only [mkTestTranscript, mkComplaint]
  rw [find?_entry_by_did tid recv.length entries d hnodup hd]
  simp only [entrySignedDealing]
  rw [if_neg (by simp)]
  rw [if_neg ?_]
  rw [mkMEGaCiphertext_getD d.poly d.eph hj]
  intro h
  apply hcor
  have h2 : (d.eph - d.eph_used) * megaRecvKey (recv.indexOf complainer) = 0 := by
    linear_combination h
  rcases mul_eq_zero.mp h2 with h3 | h3
  · exact (sub_eq_zero.mp h3).symm
  · exact absurd h3 (megaRecvKey_ne_zero hkey)

/-- A complaint whose NIZK shared secret does not match the ephemeral key of the accused
dealing is rejected with `InvalidComplaint`. -/
theorem verify_complaint_wrong_shared (tid : TranscriptId) (recv : List NodeId)
    (entries : List DealerEntry) (complainer : NodeId) (d : DealerEntry) (c : IDkgComplaint)
    (hmem : complainer ∈ recv)
    (hnodup : (entries.map DealerEntry.did).Nodup) (hd : d ∈ entries)
    (hc_tid : c.transcript_id = tid) (hc_did : c.dealer_id = d.did)
    (hshared : c.internal_complaint_raw.shared_secret ≠
      d.eph_used * megaRecvKey (recv.indexOf complainer)) :
    verify_complaint (mkTestTranscript tid recv entries) complainer c =
      .error .InvalidComplaint := by
  unfold verify_complaint
  rw [if_neg (by simp [mkTestTranscript, hc_tid])]
  rw [if_neg (by simpa [mkTestTranscript] using hmem)]
  simp only [mkTestTranscript]
  rw [hc_did, find?_entry_by_did tid recv.length entries d hnodup hd]
  simp only [entrySignedDealing]
  rw [if_pos hshared]

/-! ## Signing correctness machinery -/

theorem list_sum_map_add {α : Type} (l : List α) (f g : α → Fq) :
    (l.map (fun v => f v + g v)).sum = (l.map f).sum + (l.map g).sum := by
  induction l with
  | nil => simp
  | cons a l ih =>
    simp only [List.map_cons, List.sum_cons, ih]
    ring

theorem list_sum_map_mul_left {α : Type} (l : List α) (c : Fq) (f : α → Fq) :
    (l.map (fun v => c * f v)).sum = c * (l.map f).sum := by
  induction l with
  | nil => simp
  | cons a l ih =>
    simp only [List.map_cons, List.sum_cons, ih]
    ring

/-- The signer node ids map injectively to their evaluation points. -/
theorem evalPoint_indexOf_injOn (recv : List NodeId) (signers : List NodeId)
    (hsub : ∀ v ∈ signers, v ∈ recv) (hQn : recv.length < Q) :
    ∀ x ∈ signers, ∀ y ∈ signers,
      evalPoint (recv.indexOf x) = evalPoint (recv.indexOf y) → x = y := by
  intro x hx y hy h
  have hxm := hsub x hx
  have hym := hsub y hy
  have hxl : recv.indexOf x < recv.length := List.indexOf_lt_length.mpr hxm
  have hyl : recv.indexOf y < recv.length := List.indexOf_lt_length.mpr hym
  have hvx : ((recv.indexOf x + 1 : ℕ) : Fq).val = recv.indexOf x + 1 :=
    ZMod.val_cast_of_lt (by omega)
  have hvy : ((recv.indexOf y + 1 : ℕ) : Fq).val = recv.indexOf y + 1 :=
    ZMod.val_cast_of_lt (by omega)
  have hvals := congrArg ZMod.val h
  unfold evalPoint at hvals
  rw [hvx, hvy] at hvals
  have hidx : recv.indexOf x = recv.indexOf y := by omega
  exact (List.indexOf_inj hxm hym).mp hidx

/-- Lagrange combination over the signer set of the honest shares of a polynomial of
degree below the signer count recovers the constant term of the polynomial. -/
theorem interp_sum (recv : List NodeId) (signers : List NodeId) (p : List Fq)
    (hQn : recv.length < Q)
    (hsub : ∀ v ∈ signers, v ∈ recv)
    (hnodup : signers.Nodup)
    (hlen : p.length ≤ signers.length) :
    (signers.map (fun v =>
      lagCoeff0 ((signers.map (fun w => evalPoint (recv.indexOf w))).toFinset)
        (evalPoint (recv.indexOf v)) * evalPoly p (evalPoint (recv.indexOf v)))).sum =
      evalPoly p 0 := by
  classical
  have hpts : (signers.map (fun w => evalPoint (recv.indexOf w))).Nodup :=
    hnodup.map_on (evalPoint_indexOf_injOn recv signers hsub hQn)
  have hcard : ((signers.map (fun w => evalPoint (recv.indexOf w))).toFinset).card =
      signers.length := by
    rw [List.toFinset_card_of_nodup hpts, List.length_map]
  have hfin := sum_lagCoeff0_mul_eval p
    ((signers.map (fun w => evalPoint (recv.indexOf w))).toFinset)
    (by rw [hcard]; exact hlen)
  calc (signers.map (fun v =>
      lagCoeff0 ((signers.map (fun w => evalPoint (recv.indexOf w))).toFinset)
        (evalPoint (recv.indexOf v)) * evalPoly p (evalPoint (recv.indexOf v)))).sum
      = ((signers.map (fun w => evalPoint (recv.indexOf w))).map (fun x =>
          lagCoeff0 ((signers.map (fun w => evalPoint (recv.indexOf w))).toFinset) x *
            evalPoly p x)).sum := by rw [List.map_map]; rfl
    _ = ∑ x ∈ (signers.map (fun w => evalPoint (recv.indexOf w))).toFinset,
          lagCoeff0 ((signers.map (fun w => evalPoint (recv.indexOf w))).toFinset) x *
            evalPoly p x := (List.sum_toFinset _ hpts).symm
    _ = evalPoly p 0 := hfin

/-- Lagrange combination of shares presented as a map over the signer list. -/
theorem lagrangeCombine_map (inputs : ThresholdEcdsaSigInputs) (signers : List NodeId)
    (g : NodeId → Fq) :
    lagrangeCombine inputs (signers.map (fun v => (v, g v))) =
      (signers.map (fun v =>
        lagCoeff0 ((signers.map (fun w => evalPoint (inputs.receivers.indexOf w))).toFinset)
          (evalPoint (inputs.receivers.indexOf v)) * g v)).sum := by
  unfold lagrangeCombine
  simp only [List.map_map]
  rfl

/-- The model ECDSA verifier accepts the scalar signature recovered by the threshold
pipeline: `r` is the x-coordinate of the nonce `kappa`, and `s` is the low-s
normalization of `(m + r * x) / kappa`. -/
theorem ecdsa_accepts (m x k0 : Fq) (hk : k0 ≠ 0) (hm : m + xcoord k0 * x ≠ 0) :
    ecdsaVerifyScalar m x (xcoord k0) (lowS ((m + xcoord k0 * x) * k0⁻¹)) = true := by
  have hr := xcoord_ne_zero hk
  have hs0 : (m + xcoord k0 * x) * k0⁻¹ ≠ 0 := mul_ne_zero hm (inv_ne_zero hk)
  have hs := lowS_ne_zero hs0
  have hx : xcoord ((m + xcoord k0 * x) * (lowS ((m + xcoord k0 * x) * k0⁻¹))⁻¹) =
      xcoord k0 := by
    rcases lowS_eq_or ((m + xcoord k0 * x) * k0⁻¹) with h | h
    · rw [h, mul_inv, inv_inv, ← mul_assoc, mul_inv_cancel₀ hm, one_mul]
    · rw [h, inv_neg, mul_neg, mul_inv, inv_inv, ← mul_assoc, mul_inv_cancel₀ hm, one_mul,
        xcoord_neg]
  unfold ecdsaVerifyScalar
  simp only [Bool.and_eq_true, Bool.not_eq_true', beq_eq_false_iff_ne, ne_eq, beq_iff_eq]
  exact ⟨⟨hr, hs⟩, hx⟩

@[simp] theorem sigToBytes_length (r s : Fq) : (sigToBytes r s).length = 64 := by
  simp [sigToBytes]

theorem sigToBytes_take (r s : Fq) :
    ((bytesToNatBE ((sigToBytes r s).take 32) : ℕ) : Fq) = r := by
  unfold sigToBytes
  rw [List.take_left' (length_natToBytesBE 32 r.val), bytesToNatBE_natToBytesBE,
    Nat.mod_eq_of_lt (lt_of_lt_of_le (ZMod.val_lt r) (by norm_num))]
  exact ZMod.natCast_zmod_val r

theorem sigToBytes_drop (r s : Fq) :
    ((bytesToNatBE ((sigToBytes r s).drop 32) : ℕ) : Fq) = s := by
  unfold sigToBytes
  rw [List.drop_left' (length_natToBytesBE 32 r.val), bytesToNatBE_natToBytesBE,
    Nat.mod_eq_of_lt (lt_of_lt_of_le (ZMod.val_lt s) (by norm_num))]
  exact ZMod.natCast_zmod_val s

theorem verify_combined_sig_of (inputs : ThresholdEcdsaSigInputs)
    (sig : ThresholdEcdsaCombinedSignature) (r s : Fq) (hsig : sig.signature = sigToBytes r s)
    (hver : ecdsaVerifyScalar inputs.hashed_message
      (derive_public_key (master_public_key inputs) inputs.derivation_path) r s = true) :
    verify_combined_sig inputs sig = .ok () := by
  unfold verify_combined_sig
  rw [hsig]
  rw [if_neg (by simp)]
  rw [sigToBytes_take, sigToBytes_drop, if_pos hver]

theorem secp256k1_verify_of (sigBytes : List ℕ) (m pk r s : Fq)
    (hsig : sigBytes = sigToBytes r s) (hver : ecdsaVerifyScalar m pk r s = true) :
    secp256k1_ecdsa_verify sigBytes m pk = true := by
  unfold secp256k1_ecdsa_verify
  rw [hsig, sigToBytes_take, sigToBytes_drop, hver]
  simp

/-- Evaluation of `combine_sig_shares` on at least `reconstruction_threshold` honest
shares of honestly produced and loaded transcripts: the recovered `s` is the low-s
normalization of `(m + r * x_derived) / kappa`. -/
theorem combine_honest_eval (inputs : ThresholdEcdsaSigInputs) (signers : List NodeId)
    (hQn : inputs.receivers.length < Q)
    (hsub : ∀ v ∈ signers, v ∈ inputs.receivers)
    (hnodup : signers.Nodup)
    (hcount : inputs.reconstruction_threshold ≤ signers.length)
    (hlenL : inputs.lambda_masked.length ≤ signers.length)
    (hlenKL : inputs.kappa_times_lambda.length ≤ signers.length)
    (hlenYL : inputs.key_times_lambda.length ≤ signers.length)
    (hcross1 : evalPoly inputs.kappa_times_lambda 0 =
      evalPoly inputs.kappa_unmasked 0 * evalPoly inputs.lambda_masked 0)
    (hcross2 : evalPoly inputs.key_times_lambda 0 =
      evalPoly inputs.key_transcript 0 * evalPoly inputs.lambda_masked 0)
    (hkappa : evalPoly inputs.kappa_unmasked 0 ≠ 0)
    (hlambda : evalPoly inputs.lambda_masked 0 ≠ 0) :
    combine_sig_shares inputs (signers.map (fun v => (v, honestSigShare inputs v))) =
      .ok { signature :=
              sigToBytes (sigR inputs)
                (lowS ((inputs.hashed_message + sigR inputs *
                    derive_public_key (master_public_key inputs) inputs.derivation_path) *
                  (evalPoly inputs.kappa_unmasked 0)⁻¹)) } := by
  have hnumlist : (signers.map (fun v => (v, honestSigShare inputs v))).map
      (fun sh => (sh.1, sh.2.numerator_share)) =
      signers.map (fun v => (v, (honestSigShare inputs v).numerator_share)) := by
    rw [List.map_map]; rfl
  have hdenlist : (signers.map (fun v => (v, honestSigShare inputs v))).map
      (fun sh => (sh.1, sh.2.denominator_share)) =
      signers.map (fun v => (v, (honestSigShare inputs v).denominator_share)) := by
    rw [List.map_map]; rfl
  have hden : lagrangeCombine inputs
      (signers.map (fun v => (v, (honestSigShare inputs v).denominator_share))) =
      evalPoly inputs.kappa_times_lambda 0 := by
    rw [lagrangeCombine_map]
    exact interp_sum inputs.receivers signers inputs.kappa_times_lambda hQn hsub hnodup hlenKL
  have hnum : lagrangeCombine inputs
      (signers.map (fun v => (v, (honestSigShare inputs v).numerator_share))) =
      evalPoly inputs.lambda_masked 0 * (inputs.hashed_message + sigR inputs *
        (evalPoly inputs.key_transcript 0 + pathTweak inputs.derivation_path)) := by
    rw [lagrangeCombine_map]
    have hcong : signers.map (fun v =>
        lagCoeff0 ((signers.map (fun w => evalPoint (inputs.receivers.indexOf w))).toFinset)
          (evalPoint (inputs.receivers.indexOf v)) *
          (honestSigShare inputs v).numerator_share) =
        signers.map (fun v =>
          (inputs.hashed_message + pathTweak inputs.derivation_path * sigR inputs) *
            (lagCoeff0 ((signers.map (fun w =>
                evalPoint (inputs.receivers.indexOf w))).toFinset)
              (evalPoint (inputs.receivers.indexOf v)) *
              evalPoly inputs.lambda_masked (evalPoint (inputs.receivers.indexOf v))) +
          sigR inputs *
            (lagCoeff0 ((signers.map (fun w =>
                evalPoint (inputs.receivers.indexOf w))).toFinset)
              (evalPoint (inputs.receivers.indexOf v)) *
              evalPoly inputs.key_times_lambda (evalPoint (inputs.receivers.indexOf v)))) := by
      refine List.map_congr_left ?_
      intro v _
      unfold honestSigShare
      simp only
      ring
    rw [hcong]
    rw [list_sum_map_add signers
      (fun v => (inputs.hashed_message + pathTweak inputs.derivation_path * sigR inputs) *
        (lagCoeff0 ((signers.map (fun w => evalPoint (inputs.receivers.indexOf w))).toFinset)
          (evalPoint (inputs.receivers.indexOf v)) *
          evalPoly inputs.lambda_masked (evalPoint (inputs.receivers.indexOf v))))
      (fun v => sigR inputs *
        (lagCoeff0 ((signers.map (fun w => evalPoint (inputs.receivers.indexOf w))).toFinset)
          (evalPoint (inputs.receivers.indexOf v)) *
          evalPoly inputs.key_times_lambda (evalPoint (inputs.receivers.indexOf v))))]
    rw [list_sum_map_mul_left signers
      (inputs.hashed_message + pathTweak inputs.derivation_path * sigR inputs)
      (fun v => lagCoeff0 ((signers.map (fun w =>
          evalPoint (inputs.receivers.indexOf w))).toFinset)
        (evalPoint (inputs.receivers.indexOf v)) *
        evalPoly inputs.lambda_masked (evalPoint (inputs.receivers.indexOf v)))]
    rw [list_sum_map_mul_left signers (sigR inputs)
      (fun v => lagCoeff0 ((signers.map (fun w =>
          evalPoint (inputs.receivers.indexOf w))).toFinset)
        (evalPoint (inputs.receivers.indexOf v)) *
        evalPoly inputs.key_times_lambda (evalPoint (inputs.receivers.indexOf v)))]
    rw [interp_sum inputs.receivers signers inputs.lambda_masked hQn hsub hnodup hlenL]
    rw [interp_sum inputs.receivers signers inputs.key_times_lambda hQn hsub hnodup hlenYL]
    rw [hcross2]
    ring
  have hlen' : ¬ (signers.map (fun v => (v, honestSigShare inputs v))).length <
      inputs.reconstruction_threshold := by
    rw [List.length_map]
    omega
  unfold combine_sig_shares
  rw [if_neg hlen']
  simp only [hnumlist, hdenlist, hnum, hden, hcross1]
  have hval : (evalPoly inputs.lambda_masked 0 * (inputs.hashed_message + sigR inputs *
      (evalPoly inputs.key_transcript 0 + pathTweak inputs.derivation_path))) *
      (evalPoly inputs.kappa_unmasked 0 * evalPoly inputs.lambda_masked 0)⁻¹ =
      (inputs.hashed_message + sigR inputs *
        derive_public_key (master_public_key inputs) inputs.derivation_path) *
      (evalPoly inputs.kappa_unmasked 0)⁻¹ := by
    rw [mul_inv]
    field_simp
    unfold derive_public_key master_public_key
    ring
  rw [hval]

/-! ## Claim theorems -/

/-- C1: for every valid signature inputs whose five transcripts were produced and
loaded honestly (idealized by sharing polynomials of degree below the reconstruction
threshold satisfying the quadruple cross references, with nonzero nonce and blinding
secrets and a non-degenerate message), every receiver signs successfully, and combining
at least `reconstruction_threshold` signature shares with `combine_sig_shares` yields a
64-byte `(r, s)` signature that `verify_combined_sig` accepts and that the standard
secp256k1 ECDSA verifier of the model accepts for the hashed message under
`derive_public_key (master_public_key key_transcript) derivation_path`. -/
theorem claim_C1_signature_correctness (inputs : ThresholdEcdsaSigInputs)
    (signers : List NodeId)
    (hQn : inputs.receivers.length < Q)
    (hsub : ∀ v ∈ signers, v ∈ inputs.receivers)
    (hnodup : signers.Nodup)
    (hcount : inputs.reconstruction_threshold ≤ signers.length)
    (hlenL : inputs.lambda_masked.length ≤ inputs.reconstruction_threshold)
    (hlenKL : inputs.kappa_times_lambda.length ≤ inputs.reconstruction_threshold)
    (hlenYL : inputs.key_times_lambda.length ≤ inputs.reconstruction_threshold)
    (hcross1 : evalPoly inputs.kappa_times_lambda 0 =
      evalPoly inputs.kappa_unmasked 0 * evalPoly inputs.lambda_masked 0)
    (hcross2 : evalPoly inputs.key_times_lambda 0 =
      evalPoly inputs.key_transcript 0 * evalPoly inputs.lambda_masked 0)
    (hkappa : evalPoly inputs.kappa_unmasked 0 ≠ 0)
    (hlambda : evalPoly inputs.lambda_masked 0 ≠ 0)
    (hmsg : inputs.hashed_message + sigR inputs *
      derive_public_key (master_public_key inputs) inputs.derivation_path ≠ 0) :
    (∀ v ∈ signers, sign_share inputs v = .ok (honestSigShare inputs v)) ∧
    ∃ sig, combine_sig_shares inputs
        (signers.map (fun v => (v, honestSigShare inputs v))) = .ok sig ∧
      sig.signature.length = 64 ∧
      verify_combined_sig inputs sig = .ok () ∧
      secp256k1_ecdsa_verify sig.signature inputs.hashed_message
        (derive_public_key (master_public_key inputs) inputs.derivation_path) = true := by
  have hcomb := combine_honest_eval inputs signers hQn hsub hnodup hcount
    (hlenL.trans hcount) (hlenKL.trans hcount) (hlenYL.trans hcount)
    hcross1 hcross2 hkappa hlambda
  have hver : ecdsaVerifyScalar inputs.hashed_message
      (derive_public_key (master_public_key inputs) inputs.derivation_path) (sigR inputs)
      (lowS ((inputs.hashed_message + sigR inputs *
          derive_public_key (master_public_key inputs) inputs.derivation_path) *
        (evalPoly inputs.kappa_unmasked 0)⁻¹)) = true :=
    ecdsa_accepts inputs.hashed_message
      (derive_public_key (master_public_key inputs) inputs.derivation_path)
      (evalPoly inputs.kappa_unmasked 0) hkappa hmsg
  constructor
  · intro v hv
    unfold sign_share
    rw [if_neg (not_not_intro (hsub v hv))]
  · refine ⟨_, hcomb, sigToBytes_length _ _, ?_, ?_⟩
    · exact verify_combined_sig_of inputs _ (sigR inputs) _ rfl hver
    · exact secp256k1_verify_of _ inputs.hashed_message _ (sigR inputs) _ rfl hver

/-- The concrete signature inputs of the claims C1 and C5 scenarios: a four-node
receiver set and constant sharing polynomials satisfying the quadruple cross
references. -/
def wInputs : ThresholdEcdsaSigInputs :=
  { derivation_path := ⟨1, []⟩, hashed_message := 7, nonce := 0, receivers := [1, 2, 3, 4],
    kappa_unmasked := [3], lambda_masked := [2], kappa_times_lambda := [6],
    key_times_lambda := [10], key_transcript := [5] }

theorem claim_C1_witness :
    (wInputs.receivers.length < Q ∧
      (∀ v ∈ ([1, 3] : List NodeId), v ∈ wInputs.receivers) ∧
      ([1, 3] : List NodeId).Nodup ∧
      wInputs.reconstruction_threshold ≤ ([1, 3] : List NodeId).length ∧
      wInputs.lambda_masked.length ≤ wInputs.reconstruction_threshold ∧
      wInputs.kappa_times_lambda.length ≤ wInputs.reconstruction_threshold ∧
      wInputs.key_times_lambda.length ≤ wInputs.reconstruction_threshold ∧
      evalPoly wInputs.kappa_times_lambda 0 =
        evalPoly wInputs.kappa_unmasked 0 * evalPoly wInputs.lambda_masked 0 ∧
      evalPoly wInputs.key_times_lambda 0 =
        evalPoly wInputs.key_transcript 0 * evalPoly wInputs.lambda_masked 0 ∧
      evalPoly wInputs.kappa_unmasked 0 ≠ 0 ∧
      evalPoly wInputs.lambda_masked 0 ≠ 0 ∧
      wInputs.hashed_message + sigR wInputs *
        derive_public_key (master_public_key wInputs) wInputs.derivation_path ≠ 0) ∧
    ((∀ v ∈ ([1, 3] : List NodeId), sign_share wInputs v = .ok (honestSigShare wInputs v)) ∧
    ∃ sig, combine_sig_shares wInputs
        (([1, 3] : List NodeId).map (fun v => (v, honestSigShare wInputs v))) = .ok sig ∧
      sig.signature.length = 64 ∧
      verify_combined_sig wInputs sig = .ok () ∧
      secp256k1_ecdsa_verify sig.signature wInputs.hashed_message
        (derive_public_key (master_public_key wInputs) wInputs.derivation_path) = true) :=
 by
  have h1 : wInputs.receivers.length < Q := by decide
  have h2 : ∀ v ∈ ([1, 3] : List NodeId), v ∈ wInputs.receivers := by decide
  have h3 : ([1, 3] : List NodeId).Nodup := by decide
  have h4 : wInputs.reconstruction_threshold ≤ ([1, 3] : List NodeId).length := by decide
  have h5 : wInputs.lambda_masked.length ≤ wInputs.reconstruction_threshold := by decide
  have h6 : wInputs.kappa_times_lambda.length ≤ wInputs.reconstruction_threshold := by decide
  have h7 : wInputs.key_times_lambda.length ≤ wInputs.reconstruction_threshold := by decide
  have h8 : evalPoly wInputs.kappa_times_lambda 0 =
      evalPoly wInputs.kappa_unmasked 0 * evalPoly wInputs.lambda_masked 0 := by decide
  have h9 : evalPoly wInputs.key_times_lambda 0 =
      evalPoly wInputs.key_transcript 0 * evalPoly wInputs.lambda_masked 0 := by decide
  have h10 : evalPoly wInputs.kappa_unmasked 0 ≠ 0 := by decide
  have h11 : evalPoly wInputs.lambda_masked 0 ≠ 0 := by decide
  have h12 : wInputs.hashed_message + sigR wInputs *
      derive_public_key (master_public_key wInputs) wInputs.derivation_path ≠ 0 := by decide
  exact ⟨⟨h1, h2, h3, h4, h5, h6, h7, h8, h9, h10, h11, h12⟩,
    claim_C1_signature_correctness wInputs [1, 3] h1 h2 h3 h4 h5 h6 h7 h8 h9 h10 h11 h12⟩

/-- C2: for every honestly assembled transcript in which the ephemeral keys of `k ≥ 1`
dealings (and only those) are corrupted, `load_transcript` called by any receiver
succeeds and returns exactly `k` complaints, one per corrupted dealing, the dealer ids
of the complaints are exactly the corrupted dealers, and each returned complaint passes
`verify_complaint` when checked by every other receiver (verification is a public
computation independent of the verifier). -/
theorem claim_C2_complaint_soundness (tid : TranscriptId) (recv : List NodeId)
    (entries : List DealerEntry) (caller : NodeId) (store : KeyStore)
    (hmem : caller ∈ recv) (hQ : recv.length < Q)
    (hnodup : (entries.map DealerEntry.did).Nodup)
    (_hk : 1 ≤ (entries.filter DealerEntry.corrupted).length) :
    ∃ st, load_transcript caller store (mkTestTranscript tid recv entries) =
        .ok ((entries.filter DealerEntry.corrupted).map
          (fun d => mkComplaint tid (recv.indexOf caller) d.did d.eph_used), st) ∧
      ((entries.filter DealerEntry.corrupted).map
          (fun d => mkComplaint tid (recv.indexOf caller) d.did d.eph_used)).length =
        (entries.filter DealerEntry.corrupted).length ∧
      ((entries.filter DealerEntry.corrupted).map
          (fun d => mkComplaint tid (recv.indexOf caller) d.did d.eph_used)).map
          IDkgComplaint.dealer_id =
        (entries.filter DealerEntry.corrupted).map DealerEntry.did ∧
      ∀ c ∈ (entries.filter DealerEntry.corrupted).map
          (fun d => mkComplaint tid (recv.indexOf caller) d.did d.eph_used),
        verify_complaint (mkTestTranscript tid recv entries) caller c = .ok () := by
  refine ⟨_, load_transcript_mkTestTranscript tid recv entries caller store hmem hQ,
    List.length_map _ _, by rw [List.map_map]; rfl, ?_⟩
  intro c hc
  rcases List.mem_map.mp hc with ⟨d, hdmem, rfl⟩
  have hdf := List.mem_filter.mp hdmem
  refine verify_complaint_corrupted_ok tid recv entries caller d hmem hQ hnodup hdf.1 ?_
  simpa [DealerEntry.corrupted] using hdf.2

theorem claim_C2_witness :
    ((1 : NodeId) ∈ [1, 2] ∧ ([1, 2] : List NodeId).length < Q ∧
      (([⟨0, 10, [5], 3, 3⟩, ⟨1, 11, [4], 2, 6⟩] : List DealerEntry).map DealerEntry.did).Nodup ∧
      1 ≤ (([⟨0, 10, [5], 3, 3⟩, ⟨1, 11, [4], 2, 6⟩] : List DealerEntry).filter
        DealerEntry.corrupted).length) ∧
    ∃ st, load_transcript 1 []
        (mkTestTranscript 7 [1, 2] [⟨0, 10, [5], 3, 3⟩, ⟨1, 11, [4], 2, 6⟩]) =
        .ok ((([⟨0, 10, [5], 3, 3⟩, ⟨1, 11, [4], 2, 6⟩] : List DealerEntry).filter
            DealerEntry.corrupted).map
          (fun d => mkComplaint 7 (([1, 2] : List NodeId).indexOf 1) d.did d.eph_used), st) ∧
      ((([⟨0, 10, [5], 3, 3⟩, ⟨1, 11, [4], 2, 6⟩] : List DealerEntry).filter
            DealerEntry.corrupted).map
          (fun d => mkComplaint 7 (([1, 2] : List NodeId).indexOf 1) d.did d.eph_used)).length =
        (([⟨0, 10, [5], 3, 3⟩, ⟨1, 11, [4], 2, 6⟩] : List DealerEntry).filter
          DealerEntry.corrupted).length ∧
      ((([⟨0, 10, [5], 3, 3⟩, ⟨1, 11, [4], 2, 6⟩] : List DealerEntry).filter
            DealerEntry.corrupted).map
          (fun d => mkComplaint 7 (([1, 2] : List NodeId).indexOf 1) d.did d.eph_used)).map
          IDkgComplaint.dealer_id =
        (([⟨0, 10, [5], 3, 3⟩, ⟨1, 11, [4], 2, 6⟩] : List DealerEntry).filter
          DealerEntry.corrupted).map DealerEntry.did ∧
      ∀ c ∈ (([⟨0, 10, [5], 3, 3⟩, ⟨1, 11, [4], 2, 6⟩] : List DealerEntry).filter
            DealerEntry.corrupted).map
          (fun d => mkComplaint 7 (([1, 2] : List NodeId).indexOf 1) d.did d.eph_used),
        verify_complaint (mkTestTranscript 7 [1, 2] [⟨0, 10, [5], 3, 3⟩, ⟨1, 11, [4], 2, 6⟩])
          1 c = .ok () :=
  ⟨⟨by decide, by decide, by decide, by decide⟩,
    claim_C2_complaint_soundness 7 [1, 2] [⟨0, 10, [5], 3, 3⟩, ⟨1, 11, [4], 2, 6⟩] 1 []
      (by decide) (by decide) (by decide) (by decide)⟩

/-- C3: for two valid complaints produced by `load_transcript` against two different
corrupted dealings of the same transcript (with, as always holds up to a negligible
collision of the random corruption factors, distinct corrupted ephemeral keys), swapping
either the `dealer_id` fields or the `internal_complaint_raw` fields makes
`verify_complaint` fail with `InvalidComplaint` for both resulting complaints. -/
theorem claim_C3_complaint_specificity (tid : TranscriptId) (recv : List NodeId)
    (entries : List DealerEntry) (caller : NodeId) (store : KeyStore) (d1 d2 : DealerEntry)
    (hmem : caller ∈ recv) (hQ : recv.length < Q)
    (hnodup : (entries.map DealerEntry.did).Nodup)
    (hd1 : d1 ∈ entries) (hd2 : d2 ∈ entries)
    (hcor1 : d1.eph_used ≠ d1.eph) (hcor2 : d2.eph_used ≠ d2.eph)
    (heph : d1.eph_used ≠ d2.eph_used) :
    (∃ cs st, load_transcript caller store (mkTestTranscript tid recv entries) = .ok (cs, st) ∧
      mkComplaint tid (recv.indexOf caller) d1.did d1.eph_used ∈ cs ∧
      mkComplaint tid (recv.indexOf caller) d2.did d2.eph_used ∈ cs) ∧
    verify_complaint (mkTestTranscript tid recv entries) caller
      { mkComplaint tid (recv.indexOf caller) d1.did d1.eph_used with dealer_id := d2.did } =
      .error .InvalidComplaint ∧
    verify_complaint (mkTestTranscript tid recv entries) caller
      { mkComplaint tid (recv.indexOf caller) d2.did d2.eph_used with dealer_id := d1.did } =
      .error .InvalidComplaint ∧
    verify_complaint (mkTestTranscript tid recv entries) caller
      { mkComplaint tid (recv.indexOf caller) d1.did d1.eph_used with internal_complaint_raw :=
        (mkComplaint tid (recv.indexOf caller) d2.did d2.eph_used).internal_complaint_raw } =
      .error .InvalidComplaint ∧
    verify_complaint (mkTestTranscript tid recv entries) caller
      { mkComplaint tid (recv.indexOf caller) d2.did d2.eph_used with internal_complaint_raw :=
        (mkComplaint tid (recv.indexOf caller) d1.did d1.eph_used).internal_complaint_raw } =
      .error .InvalidComplaint := by
  have hj : recv.indexOf caller < recv.length := List.indexOf_lt_length.mpr hmem
  have hkey : recv.indexOf caller + 1 < Q := by omega
  have hknz := megaRecvKey_ne_zero hkey
  have hshared12 : d1.eph_used * megaRecvKey (recv.indexOf caller) ≠
      d2.eph_used * megaRecvKey (recv.indexOf caller) := by
    intro h
    exact heph (mul_right_cancel₀ hknz h)
  refine ⟨?_, ?_, ?_, ?_, ?_⟩
  · refine ⟨_, _, load_transcript_mkTestTranscript tid recv entries caller store hmem hQ, ?_, ?_⟩
    · exact List.mem_map_of_mem _ (List.mem_filter.mpr
        ⟨hd1, by simp [DealerEntry.corrupted, hcor1]⟩)
    · exact List.mem_map_of_mem _ (List.mem_filter.mpr
        ⟨hd2, by simp [DealerEntry.corrupted, hcor2]⟩)
  · exact verify_complaint_wrong_shared tid recv entries caller d2 _ hmem hnodup hd2 rfl rfl
      hshared12
  · exact verify_complaint_wrong_shared tid recv entries caller d1 _ hmem hnodup hd1 rfl rfl
      (fun h => hshared12 h.symm)
  · exact verify_complaint_wrong_shared tid recv entries caller d1 _ hmem hnodup hd1 rfl rfl
      (fun h => hshared12 h.symm)
  · exact verify_complaint_wrong_shared tid recv entries caller d2 _ hmem hnodup hd2 rfl rfl
      hshared12

/-- C7: loading an uncorrupted honestly assembled transcript succeeds with the empty
complaint list, and loading it again right away succeeds with the empty complaint list
again. -/
theorem claim_C7_load_idempotent (tid : TranscriptId) (recv : List NodeId)
    (entries : List DealerEntry) (caller : NodeId) (store : KeyStore)
    (hmem : caller ∈ recv) (hQ : recv.length < Q)
    (hhonest : ∀ d ∈ entries, d.eph_used = d.eph) :
    ∃ st1, load_transcript caller store (mkTestTranscript tid recv entries) = .ok ([], st1) ∧
      ∃ st2, load_transcript caller st1 (mkTestTranscript tid recv entries) = .ok ([], st2) := by
  have hfilter : entries.filter DealerEntry.corrupted = [] := by
    rw [List.filter_eq_nil_iff]
    intro d hd
    simp [DealerEntry.corrupted, hhonest d hd]
  have h1 := load_transcript_mkTestTranscript tid recv entries caller store hmem hQ
  rw [hfilter] at h1
  refine ⟨_, h1, ?_⟩
  have h2 := load_transcript_mkTestTranscript tid recv entries caller
    (storeInsert store tid (((entries.filter (fun d => !(DealerEntry.corrupted d))).map
      (fun d => evalPoly d.poly (evalPoint (recv.indexOf caller)))).foldr (· + ·) 0)) hmem hQ
  rw [hfilter] at h2
  exact ⟨_, h2⟩

theorem claim_C7_witness :
    ((1 : NodeId) ∈ [1, 2] ∧ ([1, 2] : List NodeId).length < Q ∧
      ∀ d ∈ ([⟨0, 10, [5], 3, 3⟩, ⟨1, 11, [4], 2, 2⟩] : List DealerEntry), d.eph_used = d.eph) ∧
    ∃ st1, load_transcript 1 []
        (mkTestTranscript 7 [1, 2] [⟨0, 10, [5], 3, 3⟩, ⟨1, 11, [4], 2, 2⟩]) = .ok ([], st1) ∧
      ∃ st2, load_transcript 1 st1
        (mkTestTranscript 7 [1, 2] [⟨0, 10, [5], 3, 3⟩, ⟨1, 11, [4], 2, 2⟩]) = .ok ([], st2) :=
  ⟨⟨by decide, by decide, by decide⟩,
    claim_C7_load_idempotent 7 [1, 2] [⟨0, 10, [5], 3, 3⟩, ⟨1, 11, [4], 2, 2⟩] 1 []
      (by decide) (by decide) (by decide)⟩

/-- First corrupted dealer entry of the concrete claim C3 scenario. -/
def entA : DealerEntry := ⟨0, 10, [5], 3, 4⟩

/-- Second corrupted dealer entry of the concrete claim C3 scenario. -/
def entB : DealerEntry := ⟨1, 11, [6], 2, 9⟩

/-- Dealer entries of the concrete claim C3 scenario. -/
def w3 : List DealerEntry := [entA, entB]

theorem claim_C3_witness :
    ((1 : NodeId) ∈ [1, 2] ∧ ([1, 2] : List NodeId).length < Q ∧
      (w3.map DealerEntry.did).Nodup ∧ entA ∈ w3 ∧ entB ∈ w3 ∧
      entA.eph_used ≠ entA.eph ∧ entB.eph_used ≠ entB.eph ∧
      entA.eph_used ≠ entB.eph_used) ∧
    ((∃ cs st, load_transcript 1 [] (mkTestTranscript 7 [1, 2] w3) = .ok (cs, st) ∧
      mkComplaint 7 (([1, 2] : List NodeId).indexOf 1) entA.did entA.eph_used ∈ cs ∧
      mkComplaint 7 (([1, 2] : List NodeId).indexOf 1) entB.did entB.eph_used ∈ cs) ∧
    verify_complaint (mkTestTranscript 7 [1, 2] w3) 1
      { mkComplaint 7 (([1, 2] : List NodeId).indexOf 1) entA.did entA.eph_used with
        dealer_id := entB.did } = .error .InvalidComplaint ∧
    verify_complaint (mkTestTranscript 7 [1, 2] w3) 1
      { mkComplaint 7 (([1, 2] : List NodeId).indexOf 1) entB.did entB.eph_used with
        dealer_id := entA.did } = .error .InvalidComplaint ∧
    verify_complaint (mkTestTranscript 7 [1, 2] w3) 1
      { mkComplaint 7 (([1, 2] : List NodeId).indexOf 1) entA.did entA.eph_used with
        internal_complaint_raw :=
          (mkComplaint 7 (([1, 2] : List NodeId).indexOf 1) entB.did
            entB.eph_used).internal_complaint_raw } = .error .InvalidComplaint ∧
    verify_complaint (mkTestTranscript 7 [1, 2] w3) 1
      { mkComplaint 7 (([1, 2] : List NodeId).indexOf 1) entB.did entB.eph_used with
        internal_complaint_raw :=
          (mkComplaint 7 (([1, 2] : List NodeId).indexOf 1) entA.did
            entA.eph_used).internal_complaint_raw } = .error .InvalidComplaint) :=
  ⟨⟨by decide, by decide, by decide, by decide, by decide, by decide, by decide, by decide⟩,
    claim_C3_complaint_specificity 7 [1, 2] w3 1 [] entA entB (by decide) (by decide)
      (by decide) (by decide) (by decide) (by decide) (by decide) (by decide)⟩

/-- C4: for every params and every dealings map with fewer entries than the collection
threshold, `create_transcript` fails with `UnsatisfiedCollectionThreshold` carrying the
collection threshold of the params and the number of supplied dealings; the check is the
first of the ordered checks, firing unconditionally on the remaining content of the
supplied dealings. -/
theorem claim_C4_collection_threshold_first (params : IDkgTranscriptParams)
    (dealings : List (NodeId × IDkgMultiSignedDealing))
    (h : dealings.length < params.collection_threshold) :
    create_transcript params dealings =
      .error (.UnsatisfiedCollectionThreshold params.collection_threshold dealings.length) := by
  unfold create_transcript
  rw [if_pos h]

/-- The concrete params of the claim C4 scenario. -/
def w4params : IDkgTranscriptParams :=
  { transcript_id := 1, dealers := [1], receivers := [1], registry_version := 1,
    algorithm_id := 0, operation_type := .Random }

theorem claim_C4_witness :
    (([] : List (NodeId × IDkgMultiSignedDealing)).length < w4params.collection_threshold) ∧
    create_transcript w4params [] =
      .error (.UnsatisfiedCollectionThreshold w4params.collection_threshold
        ([] : List (NodeId × IDkgMultiSignedDealing)).length) :=
  ⟨by decide, claim_C4_collection_threshold_first w4params [] (by decide)⟩

/-- C5: for every signature inputs and every share map with fewer entries than the
reconstruction threshold, `combine_sig_shares` fails with
`UnsatisfiedReconstructionThreshold` carrying the reconstruction threshold of the inputs
and the number of supplied shares, regardless of the shares themselves. -/
theorem claim_C5_reconstruction_threshold (inputs : ThresholdEcdsaSigInputs)
    (shares : List (NodeId × ThresholdEcdsaSigShare))
    (h : shares.length < inputs.reconstruction_threshold) :
    combine_sig_shares inputs shares =
      .error (.UnsatisfiedReconstructionThreshold inputs.reconstruction_threshold
        shares.length) := by
  unfold combine_sig_shares
  rw [if_pos h]

theorem claim_C5_witness :
    (([] : List (NodeId × ThresholdEcdsaSigShare)).length <
      wInputs.reconstruction_threshold) ∧
    combine_sig_shares wInputs [] =
      .error (.UnsatisfiedReconstructionThreshold wInputs.reconstruction_threshold
        ([] : List (NodeId × ThresholdEcdsaSigShare)).length) :=
  ⟨by decide, claim_C5_reconstruction_threshold wInputs [] (by decide)⟩

/-- C6: when the operation type of the params reshares a prior transcript,
`create_dealing` by a dealer that has not loaded its share of that transcript fails with
`SecretSharesNotFound`, and after that dealer loads the prior transcript the same call
succeeds. -/
theorem claim_C6_reshare_requires_loaded_share (params : IDkgTranscriptParams)
    (prev_tid : TranscriptId) (recv : List NodeId) (entries : List DealerEntry)
    (caller : NodeId) (registry : Registry) (store : KeyStore) (seed : ℕ)
    (hop : params.operation_type = .ReshareOfMasked (mkTestTranscript prev_tid recv entries))
    (hdealer : caller ∈ params.dealers)
    (hreg : ∀ r ∈ params.receivers, (registry r).isSome = true)
    (hnotloaded : storeLookup store prev_tid = none)
    (hmem : caller ∈ recv) (hQ : recv.length < Q) :
    create_dealing params caller registry store seed =
      .error (.SecretSharesNotFound prev_tid) ∧
    ∃ cs st, load_transcript caller store (mkTestTranscript prev_tid recv entries) =
        .ok (cs, st) ∧
      ∃ dlg, create_dealing params caller registry st seed = .ok dlg := by
  have hfind : params.receivers.find? (fun r => (registry r).isNone) = none := by
    rw [List.find?_eq_none]
    intro r hr
    have h1 := hreg r hr
    simp [Option.isNone_iff_eq_none] at h1 ⊢
    intro h2
    rw [h2] at h1
    cases h1
  constructor
  · unfold create_dealing
    rw [if_neg (not_not_intro hdealer), hfind, hop]
    simp only [mkTestTranscript]
    rw [hnotloaded]
  · refine ⟨_, _, load_transcript_mkTestTranscript prev_tid recv entries caller store hmem hQ,
      ?_⟩
    unfold create_dealing
    rw [if_neg (not_not_intro hdealer), hfind, hop]
    simp only [mkTestTranscript]
    rw [storeLookup_storeInsert]
    exact ⟨_, rfl⟩

theorem claim_C6_witness :
    (({ transcript_id := 9, dealers := [1, 3], receivers := [1, 2], registry_version := 1,
        algorithm_id := 0,
        operation_type := .ReshareOfMasked (mkTestTranscript 7 [1, 2] [⟨0, 10, [5], 3, 3⟩]) } :
        IDkgTranscriptParams).operation_type =
        .ReshareOfMasked (mkTestTranscript 7 [1, 2] [⟨0, 10, [5], 3, 3⟩]) ∧
      (1 : NodeId) ∈ [1, 3] ∧
      (∀ r ∈ ([1, 2] : List NodeId), ((fun _ => some 1 : Registry) r).isSome = true) ∧
      storeLookup [] 7 = none ∧ (1 : NodeId) ∈ [1, 2] ∧ ([1, 2] : List NodeId).length < Q) ∧
    (create_dealing
      { transcript_id := 9, dealers := [1, 3], receivers := [1, 2], registry_version := 1,
        algorithm_id := 0,
        operation_type := .ReshareOfMasked (mkTestTranscript 7 [1, 2] [⟨0, 10, [5], 3, 3⟩]) }
      1 (fun _ => some 1) [] 0 = .error (.SecretSharesNotFound 7) ∧
    ∃ cs st, load_transcript 1 [] (mkTestTranscript 7 [1, 2] [⟨0, 10, [5], 3, 3⟩]) =
        .ok (cs, st) ∧
      ∃ dlg, create_dealing
        { transcript_id := 9, dealers := [1, 3], receivers := [1, 2], registry_version := 1,
          algorithm_id := 0,
          operation_type := .ReshareOfMasked (mkTestTranscript 7 [1, 2] [⟨0, 10, [5], 3, 3⟩]) }
        1 (fun _ => some 1) st 0 = .ok dlg) :=
  ⟨⟨rfl, by decide, by decide, rfl, by decide, by decide⟩,
    claim_C6_reshare_requires_loaded_share _ 7 [1, 2] [⟨0, 10, [5], 3, 3⟩] 1 (fun _ => some 1)
      [] 0 rfl (by decide) (by decide) rfl (by decide) (by decide)⟩

/-- C9: on a transcript that fails the inner transcript verification (for example one
whose `internal_transcript_raw` does not match its `verified_dealings`),
`open_transcript` fails, and the surfaced error is `InternalError` — not
`InvalidTranscript` — because the failure comes from the internal `verify_transcript`
call. -/
theorem claim_C9_open_transcript_internal_error (caller : NodeId) (t : IDkgTranscript)
    (complainer_id : NodeId) (c : IDkgComplaint)
    (h : verifyTranscriptCore t = false) :
    open_transcript caller t complainer_id c =
      .error (.InternalError "open_transcript: invalid transcript") ∧
    open_transcript caller t complainer_id c ≠ .error .InvalidTranscript := by
  have h1 : open_transcript caller t complainer_id c =
      .error (.InternalError "open_transcript: invalid transcript") := by
    unfold open_transcript
    rw [if_pos (by simp [h])]
  exact ⟨h1, by rw [h1]; intro h2; cases h2⟩

theorem claim_C9_witness :
    (verifyTranscriptCore
      { transcript_id := 1, receivers := [1], registry_version := 1, verified_dealings := [],
        transcript_type := .Masked .Random, algorithm_id := 0,
        internal_transcript_raw := { combined_commitment := [1], dealer_commitments := [] } } =
      false) ∧
    (open_transcript 1
        { transcript_id := 1, receivers := [1], registry_version := 1, verified_dealings := [],
          transcript_type := .Masked .Random, algorithm_id := 0,
          internal_transcript_raw := { combined_commitment := [1], dealer_commitments := [] } }
        1 { transcript_id := 1, dealer_id := 1, internal_complaint_raw := ⟨0⟩ } =
      .error (.InternalError "open_transcript: invalid transcript") ∧
    open_transcript 1
        { transcript_id := 1, receivers := [1], registry_version := 1, verified_dealings := [],
          transcript_type := .Masked .Random, algorithm_id := 0,
          internal_transcript_raw := { combined_commitment := [1], dealer_commitments := [] } }
        1 { transcript_id := 1, dealer_id := 1, internal_complaint_raw := ⟨0⟩ } ≠
      .error .InvalidTranscript) :=
  ⟨by decide,
    claim_C9_open_transcript_internal_error 1
      { transcript_id := 1, receivers := [1], registry_version := 1, verified_dealings := [],
        transcript_type := .Masked .Random, algorithm_id := 0,
        internal_transcript_raw := { combined_commitment := [1], dealer_commitments := [] } }
      1 { transcript_id := 1, dealer_id := 1, internal_complaint_raw := ⟨0⟩ } (by decide)⟩

/-- The fake params of the test `should_run_verify_dealing_public` (a single node that
is both the sole dealer and the sole receiver). -/
def testFakeParams : IDkgTranscriptParams :=
  { transcript_id := 1, dealers := [1], receivers := [1], registry_version := 1,
    algorithm_id := 0, operation_type := .Random }

/-- The dealing of the test `should_run_verify_dealing_public`: empty
`internal_dealing_raw` and a dealer id (node 0) outside the dealer set. -/
def testEmptyDealing : IDkgDealing :=
  { transcript_id := 1, dealer_id := 0,
    internal_dealing_raw := { commitment := [], ciphertext := { ephemeral_key := 0, ctexts := [] } } }

/-- C8: the shipped `verify_dealing_public` (a noop stub per the doc comment of the
`IDkgProtocol` impl, whose test asserts `Ok` on this very input) accepts the empty
dealing of the test, while the verification the spec describes rejects it: the dealer is
not in the dealer set and the empty `internal_dealing_raw` has no ciphertext entry for
the receiver. -/
theorem claim_C8_stub_accepts_empty_dealing :
    verify_dealing_public_impl testFakeParams testEmptyDealing = .ok () ∧
    verify_dealing_public_spec testFakeParams testEmptyDealing.dealer_id testEmptyDealing =
      false := by
  exact ⟨rfl, by decide⟩

/-- C10: each of the eleven `IDkgProtocol` methods of `CryptoComponentFatClient` returns
exactly the value returned by the corresponding inner engine function; the surrounding
logger and metrics instrumentation only changes the instrumentation state, never the
returned `Result`. -/
theorem claim_C10_wrappers_return_engine_results {Csp : Type}
    (c : CryptoComponentFatClient Csp) (st : InstrState) :
    (∀ params, (c.create_dealing st params).1 =
      c.engine.dealing_create_dealing c.csp c.node_id c.registry_client params) ∧
    (∀ params dealer_id dealing, (c.verify_dealing_public st params dealer_id dealing).1 =
      c.engine.dealing_verify_dealing_public c.csp params dealer_id dealing) ∧
    (∀ params dealer_id dealing, (c.verify_dealing_private st params dealer_id dealing).1 =
      c.engine.dealing_verify_dealing_private c.csp c.node_id c.registry_client params
        dealer_id dealing) ∧
    (∀ params dealings, (c.create_transcript st params dealings).1 =
      c.engine.transcript_create_transcript c.csp c.registry_client params dealings) ∧
    (∀ params transcript, (c.verify_transcript st params transcript).1 =
      c.engine.transcript_verify_transcript c.csp c.registry_client params transcript) ∧
    (∀ transcript, (c.load_transcript st transcript).1 =
      c.engine.transcript_load_transcript c.csp c.node_id c.registry_client transcript) ∧
    (∀ transcript complainer_id complaint,
      (c.verify_complaint st transcript complainer_id complaint).1 =
      c.engine.complaint_verify_complaint c.csp c.registry_client transcript complaint
        complainer_id) ∧
    (∀ transcript complainer_id complaint,
      (c.open_transcript st transcript complainer_id complaint).1 =
      c.engine.transcript_open_transcript c.csp c.node_id c.registry_client transcript
        complainer_id complaint) ∧
    (∀ transcript opener opening complaint,
      (c.verify_opening st transcript opener opening complaint).1 =
      c.engine.transcript_verify_opening c.csp transcript opener opening complaint) ∧
    (∀ transcript openings, (c.load_transcript_with_openings st transcript openings).1 =
      c.engine.transcript_load_transcript_with_openings c.csp c.node_id c.registry_client
        transcript openings) ∧
    (∀ active_transcripts, (c.retain_active_transcripts st active_transcripts).1 =
      c.engine.retain_active_keys_retain_active_transcripts c.csp active_transcripts) :=
  ⟨fun _ => rfl, fun _ _ _ => rfl, fun _ _ _ => rfl, fun _ _ => rfl, fun _ _ => rfl,
    fun _ => rfl, fun _ _ _ => rfl, fun _ _ _ => rfl, fun _ _ _ _ => rfl, fun _ _ => rfl,
    fun _ => rfl⟩

end IcIdkg
